import Mathlib

/-!
# A shallow embedding of the libwebm segment muxer (mkvmuxer.cpp)

This file models, in Lean, the cluster/frame state machine of the WebM
muxer implemented in `src/mkvmuxer.cpp`: the `Segment`, `Cluster`,
`Tracks`, `SeekHead`, `SegmentInfo` and `Cues` classes and their
operations (`Segment::AddFrame`, `Segment::Finalize`,
`Segment::WriteFramesAll`, `Segment::WriteFramesLessThan`,
`Cluster::AddFrame`, `SeekHead::AddSeekEntry`, ...).

Modelling conventions:
* the abstract writer (`IMkvWriter`) is a triple (position, total bytes
  accepted, seekable flag); a write of `n` bytes advances the position and
  the byte counter by `n`;
* machine integers are `Nat`; the one place where unsigned 64-bit
  wrap-around matters (the cluster-duration check in `Segment::AddFrame`)
  uses an explicit `% 2 ^ 64`;
* fallible operations return `Option`: `none` models undefined behaviour
  (a null / out-of-bounds dereference that the source would perform),
  while `some (false, s)` models the function returning `false` with the
  side effects it performed up to that point; C++ `assert`s are modelled
  as no-ops (release semantics) except where the source would dereference
  an invalid pointer right after;
* clusters carry a ghost list of the blocks written into them (track
  number, original nanosecond timestamp, relative timecode, key flag,
  length) and the ghost byte position of their element header; cue points
  carry the ghost index of the cluster they were created for and the ghost
  writer position at creation time;
* the EBML serialization helpers (`EbmlElementSize`, `WriteSimpleBlock`,
  `WriteVoidElement`, ...) live in `mkvmuxerutil.cpp` / `webmids.hpp`,
  which are not part of `src/`; their byte-count behaviour is modelled
  from the spec (spec sections 4.1 and 4.3) and is marked as such below.
-/

namespace mkvmuxer

/-! ## EBML ids (modelled from the spec: `webmids.hpp` is not in `src/`;
these are the standard Matroska element ids the spec's wire format names). -/

def kMkvSegment : Nat := 0x18538067
def kMkvInfo : Nat := 0x1549A966
def kMkvTimecodeScale : Nat := 0x2AD7B1
def kMkvDuration : Nat := 0x4489
def kMkvMuxingApp : Nat := 0x4D80
def kMkvWritingApp : Nat := 0x5741
def kMkvTracks : Nat := 0x1654AE6B
def kMkvTrackEntry : Nat := 0xAE
def kMkvTrackNumber : Nat := 0xD7
def kMkvTrackUID : Nat := 0x73C5
def kMkvTrackType : Nat := 0x83
def kMkvCodecID : Nat := 0x86
def kMkvVideo : Nat := 0xE0
def kMkvPixelWidth : Nat := 0xB0
def kMkvPixelHeight : Nat := 0xBA
def kMkvAudio : Nat := 0xE1
def kMkvSamplingFrequency : Nat := 0xB5
def kMkvChannels : Nat := 0x9F
def kMkvCluster : Nat := 0x1F43B675
def kMkvTimecode : Nat := 0xE7
def kMkvCues : Nat := 0x1C53BB6B
def kMkvCuePoint : Nat := 0xBB
def kMkvCueTime : Nat := 0xB3
def kMkvCueTrackPositions : Nat := 0xB7
def kMkvCueTrack : Nat := 0xF7
def kMkvCueClusterPosition : Nat := 0xF1
def kMkvCueBlockNumber : Nat := 0x5378
def kMkvSeekHead : Nat := 0x114D9B74
def kMkvSeek : Nat := 0x4DBB
def kMkvSeekID : Nat := 0x53AB
def kMkvSeekPosition : Nat := 0x53AC

/-! ## EBML size arithmetic

Modelled from the spec: `mkvmuxerutil.cpp` is not in `src/`. Spec section
4.1: ids are emitted verbatim in their byte width; vints use the
smallest fit; unsigned integers use minimum-bytes big-endian with 0
encoded as one zero byte; floats are 4 bytes; strings carry no
terminator; master elements write the id followed by an 8-byte size vint;
`emit_void(total)` writes exactly `total` bytes. -/

/-- Modelled from the spec: minimum big-endian byte count of an unsigned
integer (`GetUIntSize` of the absent `mkvmuxerutil.cpp`); 0 encodes as one
zero byte. -/
def GetUIntSize (v : Nat) : Nat :=
  if v < 2 ^ 8 then 1
  else if v < 2 ^ 16 then 2
  else if v < 2 ^ 24 then 3
  else if v < 2 ^ 32 then 4
  else if v < 2 ^ 40 then 5
  else if v < 2 ^ 48 then 6
  else if v < 2 ^ 56 then 7
  else 8

/-- Modelled from the spec: width of a smallest-fit size vint (spec 4.1:
the first byte has its top N-1 bits zero and its N-th bit set, the payload
fills the rest). -/
def GetCodedUIntSize (v : Nat) : Nat :=
  if v < 2 ^ 7 then 1
  else if v < 2 ^ 14 then 2
  else if v < 2 ^ 21 then 3
  else if v < 2 ^ 28 then 4
  else if v < 2 ^ 35 then 5
  else if v < 2 ^ 42 then 6
  else if v < 2 ^ 49 then 7
  else 8

/-- Modelled from the spec: an EBML id is emitted verbatim in its byte
width (the marker bit is part of the constant). -/
def IdSize (id : Nat) : Nat := GetUIntSize id

/-- Modelled from the spec: serialized size of a non-master element with an
unsigned-integer payload: id, smallest-fit size vint, then the payload. -/
def EbmlElementSize (id v : Nat) : Nat :=
  IdSize id + GetCodedUIntSize (GetUIntSize v) + GetUIntSize v

/-- Modelled from the spec: serialized size of a string element of payload
length `len` (no terminator). -/
def EbmlElementSizeStr (id len : Nat) : Nat :=
  IdSize id + GetCodedUIntSize len + len

/-- Modelled from the spec: serialized size of a float element (4 bytes
IEEE-754 payload). -/
def EbmlElementSizeF (id : Nat) : Nat := IdSize id + GetCodedUIntSize 4 + 4

/-- Modelled from the spec: a master element contributes its id followed by
a full-width 8-byte size vint (spec 4.1, `emit_master`). -/
def EbmlMasterElementSize (id : Nat) : Nat := IdSize id + 8

/-- Modelled from the spec (4.3): a SimpleBlock is the 1-byte element id, a
4-byte size vint, a 1-byte track vint, a signed 16-bit relative timecode, a
flags byte, then the raw payload. -/
def SimpleBlockSize (len : Nat) : Nat := 1 + 4 + 1 + 2 + 1 + len

/-! ## The abstract writer -/

/-- The abstract sink of `IMkvWriter`: current byte offset, total bytes it
has accepted, and the seekable capability flag. -/
structure MWriter where
  pos : Nat
  bytesWritten : Nat
  seekable : Bool
deriving DecidableEq

/-- Accept `n` bytes: the position and the byte counter advance by `n`. -/
def MWriter.write (w : MWriter) (n : Nat) : MWriter :=
  { w with pos := w.pos + n, bytesWritten := w.bytesWritten + n }

/-- `IMkvWriter::Position(int64)`: absolute seek. -/
def MWriter.setPos (w : MWriter) (p : Nat) : MWriter := { w with pos := p }

/-! ## Frames and blocks -/

/-- An owned frame copy held in the audio-hold queue (the `Frame` class). -/
structure Frame where
  length : Nat
  trackNumber : Nat
  timestamp : Nat
  isKey : Bool
deriving DecidableEq

/-- Ghost record of one SimpleBlock written into a cluster: the track, the
original nanosecond timestamp, the relative timecode as computed by the
source (an `int64` before the narrowing cast), the key flag and the payload
length. -/
structure Block where
  trackNumber : Nat
  timestampNs : Nat
  relTimecode : Int
  isKey : Bool
  length : Nat
deriving DecidableEq

/-- The identity of a block that the block-layout claims talk about:
track number, nanosecond timestamp, key flag. -/
def Block.sig (b : Block) : Nat × Nat × Bool := (b.trackNumber, b.timestampNs, b.isKey)

/-- The corresponding projection of a queued frame. -/
def Frame.sig (f : Frame) : Nat × Nat × Bool := (f.trackNumber, f.timestamp, f.isKey)

/-- The ghost block that writing frame data `(len, tn, ts, key)` into a
cluster with base timecode `tc` at timecode scale `scale` produces. -/
def mkBlock (tc scale len tn ts : Nat) (isKey : Bool) : Block :=
  { trackNumber := tn, timestampNs := ts,
    relTimecode := Int.ofNat (ts / scale) - Int.ofNat tc,
    isKey := isKey, length := len }

/-! ## Cluster -/

/-- The `Cluster` class: base timecode in scaled units, block counter,
payload-size accumulator, finalized and header-written flags, the saved
byte position of the 8-byte size field, plus the ghost header position and
ghost block list. -/
structure Cluster where
  blocksAdded : Nat
  timecode : Nat
  finalized : Bool
  headerWritten : Bool
  payloadSize : Nat
  sizePosition : Option Nat
  headerPos : Option Nat
  blocks : List Block
deriving DecidableEq

/-- A fresh cluster (`Cluster::Cluster(timecode, writer)`). -/
def Cluster.new (tc : Nat) : Cluster :=
  { blocksAdded := 0, timecode := tc, finalized := false,
    headerWritten := false, payloadSize := 0, sizePosition := none,
    headerPos := none, blocks := [] }

/-- `Cluster::WriteClusterHeader`: the 4-byte Cluster id, the 8-byte
"unknown size" placeholder (position saved for back-patch), then the
Timecode child element, whose size is added to the payload accumulator. -/
def Cluster.WriteClusterHeader (c : Cluster) (w : MWriter) : MWriter × Cluster :=
  let hp := w.pos
  let w1 := w.write 4
  let sp := w1.pos
  let w2 := w1.write 8
  let tcSize := EbmlElementSize kMkvTimecode c.timecode
  let w3 := w2.write tcSize
  (w3, { c with sizePosition := some sp, headerPos := some hp,
                payloadSize := c.payloadSize + tcSize, headerWritten := true })

/-- `Cluster::AddFrame`: rejected when finalized (`none` models the
`false` return); writes the header lazily, then one SimpleBlock, growing
the payload accumulator and the block counter. `ts` is the ghost
nanosecond timestamp recorded in the ghost block list. -/
def Cluster.AddFrame (c : Cluster) (w : MWriter) (len tn : Nat) (tc : Int)
    (isKey : Bool) (ts : Nat) : Option (MWriter × Cluster) :=
  if c.finalized then none
  else
    let (w1, c1) := if c.headerWritten then (w, c) else c.WriteClusterHeader w
    let es := SimpleBlockSize len
    let w2 := w1.write es
    some (w2, { c1 with payloadSize := c1.payloadSize + es,
                        blocksAdded := c1.blocksAdded + 1,
                        blocks := c1.blocks ++
                          [{ trackNumber := tn, timestampNs := ts,
                             relTimecode := tc, isKey := isKey, length := len }] })

/-- `Cluster::Finalize`: fails (returns `false`, modelled `none`) when
already finalized; when the writer is seekable, back-patches the saved
8-byte size field and restores the position; sets the finalized flag. -/
def Cluster.Finalize (c : Cluster) (w : MWriter) : Option (MWriter × Cluster) :=
  if c.finalized then none
  else
    match c.sizePosition with
    | none => none
    | some sp =>
      let w1 := if w.seekable then ((w.setPos sp).write 8).setPos w.pos else w
      some (w1, { c with finalized := true })

/-! ## Tracks -/

/-- `Tracks::kVideo` / `Tracks::kAudio` (modelled from the spec: the
enum lives in the absent header; spec 3: track type 1 = video,
2 = audio). -/
def kVideo : Nat := 1

def kAudio : Nat := 2

/-- Modelled from the spec: `Track::MakeUID` draws 56 random bits (upper
byte zero). The RNG is wall-clock seeded and outside a shallow embedding;
the model fixes one representative 7-byte value, which only shifts
absolute byte positions uniformly. -/
def MakeUID : Nat := 0x23A57BCD9F1E43

/-- One `Track` object: the structure keeps the fields that the
`AddVideoTrack` / `AddAudioTrack` flows of the source populate. -/
structure Track where
  number : Nat
  ttype : Nat
  uid : Nat
  codecIdLen : Nat
  width : Nat
  height : Nat
  sampleRate : Nat
  channels : Nat
deriving DecidableEq

/-- `Tracks::AddTrack`: append and assign the 1-based index as the track
number. -/
def AddTrack (ts : List Track) (t : Track) : List Track :=
  ts ++ [{ t with number := ts.length + 1 }]

/-- `Tracks::GetTrackByNumber`: first track with the given number, else
NULL. -/
def GetTrackByNumber (ts : List Track) (tn : Nat) : Option Track :=
  ts.find? (fun t => t.number = tn)

/-- `Tracks::TrackIsAudio`: dereferences `GetTrackByNumber`'s result
without a null check; `none` models the null dereference. -/
def TrackIsAudio (ts : List Track) (tn : Nat) : Option Bool :=
  (GetTrackByNumber ts tn).map (fun t => t.ttype = kAudio)

/-- `Tracks::TrackIsVideo`: same shape as `TrackIsAudio`. -/
def TrackIsVideo (ts : List Track) (tn : Nat) : Option Bool :=
  (GetTrackByNumber ts tn).map (fun t => t.ttype = kVideo)

/-- Bytes `Track::Write` emits for one track entry (TrackEntry master,
common payload, then the Video or Audio settings master); the element
sizes are the spec-modelled EBML sizes. Optional fields the
`AddVideoTrack` / `AddAudioTrack` flows leave unset are omitted. -/
def Track.Size (t : Track) : Nat :=
  let common := EbmlElementSize kMkvTrackNumber t.number +
    EbmlElementSize kMkvTrackUID t.uid +
    EbmlElementSize kMkvTrackType t.ttype +
    EbmlElementSizeStr kMkvCodecID t.codecIdLen
  if t.ttype = kVideo then
    EbmlMasterElementSize kMkvTrackEntry + common +
      EbmlMasterElementSize kMkvVideo +
      (EbmlElementSize kMkvPixelWidth t.width +
       EbmlElementSize kMkvPixelHeight t.height)
  else
    EbmlMasterElementSize kMkvTrackEntry + common +
      EbmlMasterElementSize kMkvAudio +
      (EbmlElementSizeF kMkvSamplingFrequency +
       EbmlElementSize kMkvChannels t.channels)

/-- Bytes `Tracks::Write` emits: the Tracks master then every entry. -/
def TracksWriteSize (ts : List Track) : Nat :=
  EbmlMasterElementSize kMkvTracks + ts.foldl (fun a t => a + t.Size) 0

/-! ## SeekHead -/

/-- `SeekHead::kSeekEntryCount` (modelled from the spec: the constant is
declared in the absent header; spec 4.5: exactly five slots). -/
def kSeekEntryCount : Nat := 5

/-- The `SeekHead` class: parallel id / position slot arrays and the saved
start position of the void placeholder. -/
structure SeekHead where
  ids : List Nat
  poss : List Nat
  startPos : Nat
deriving DecidableEq

/-- `SeekHead::SeekHead`: all five slots zeroed. -/
def SeekHead.init : SeekHead :=
  { ids := List.replicate kSeekEntryCount 0,
    poss := List.replicate kSeekEntryCount 0, startPos := 0 }

/-- The slot scan of `SeekHead::AddSeekEntry`: store in the first slot
whose id is 0; `none` when every slot holds a non-zero id. -/
def addSeekEntryAux (id pos : Nat) : List Nat → List Nat → Option (List Nat × List Nat)
  | [], _ => none
  | _ :: _, [] => none
  | i :: is, p :: ps =>
    if i = 0 then some (id :: is, pos :: ps)
    else (addSeekEntryAux id pos is ps).map (fun r => (i :: r.1, p :: r.2))

/-- `SeekHead::AddSeekEntry`. -/
def SeekHead.AddSeekEntry (sh : SeekHead) (id pos : Nat) : Option SeekHead :=
  (addSeekEntryAux id pos sh.ids sh.poss).map
    (fun r => { sh with ids := r.1, poss := r.2 })

/-- `SeekHead::MaxEntrySize`: one Seek master holding a 32-bit id and a
64-bit position. -/
def MaxEntrySize : Nat :=
  let payload := EbmlElementSize kMkvSeekID 0xffffffff +
    EbmlElementSize kMkvSeekPosition 0xffffffffffffffff
  EbmlMasterElementSize kMkvSeek + payload

/-- `SeekHead::Write`: record the start position and reserve the maximal
SeekHead as one void element. -/
def SeekHead.Write (sh : SeekHead) (w : MWriter) : MWriter × SeekHead :=
  let sz := EbmlMasterElementSize kMkvSeekHead
  (w.write (sz + kSeekEntryCount * MaxEntrySize), { sh with startPos := w.pos })

/-- Bytes of one populated seek entry inside `SeekHead::Finalize`. -/
def seekEntrySize (id pos : Nat) : Nat :=
  EbmlMasterElementSize kMkvSeek +
    (EbmlElementSize kMkvSeekID id + EbmlElementSize kMkvSeekPosition pos)

/-- `SeekHead::Finalize`: when seekable and at least one slot is
populated, seek to the reserved area, write the real SeekHead, fill the
remainder with one Void element, and seek back. -/
def SeekHead.Finalize (sh : SeekHead) (w : MWriter) : MWriter :=
  if w.seekable then
    let payload := (sh.ids.zip sh.poss).foldl
      (fun a e => if e.1 ≠ 0 then a + seekEntrySize e.1 e.2 else a) 0
    if payload = 0 then w
    else
      let saved := w.pos
      let w1 := (w.setPos sh.startPos).write (EbmlMasterElementSize kMkvSeekHead)
      let w2 := w1.write payload
      let total := EbmlMasterElementSize kMkvSeekHead + kSeekEntryCount * MaxEntrySize
      let sizeLeft := total - (w2.pos - sh.startPos)
      (w2.write sizeLeft).setPos saved
  else w

/-! ## SegmentInfo -/

/-- The `SegmentInfo` class. The duration is a double whose only observable
uses are the sign test `duration_ > 0.0` and the fixed-width float element
it produces, so the model keeps the sign as a flag; the app strings only
contribute their lengths (modelled from the spec: `GetVersion` lives
outside `src/`, the spec fixes the auto-filled "libwebm-a.b.c.d" shape,
15 bytes for one-digit components). -/
structure SegmentInfo where
  timecodeScale : Nat
  durationPositive : Bool
  durationPos : Option Nat
  muxingAppLen : Nat
  writingAppLen : Nat
deriving DecidableEq

/-- `SegmentInfo::SegmentInfo` followed by `Init`. -/
def SegmentInfo.init : SegmentInfo :=
  { timecodeScale := 1000000, durationPositive := false, durationPos := none,
    muxingAppLen := 15, writingAppLen := 15 }

/-- `SegmentInfo::Write`: the Info master, TimecodeScale, the Duration
placeholder when the duration is positive (its position saved for the
back-patch), then the two app strings. Returns the advanced writer and
the updated `duration_pos_`. -/
def SegmentInfo.Write (si : SegmentInfo) (w : MWriter) : MWriter × Option Nat :=
  let w1 := w.write (EbmlMasterElementSize kMkvInfo)
  let w2 := w1.write (EbmlElementSize kMkvTimecodeScale si.timecodeScale)
  let (w3, dp) :=
    if si.durationPositive then
      (w2.write (EbmlElementSizeF kMkvDuration), some w2.pos)
    else (w2, si.durationPos)
  let w4 := w3.write (EbmlElementSizeStr kMkvMuxingApp si.muxingAppLen)
  let w5 := w4.write (EbmlElementSizeStr kMkvWritingApp si.writingAppLen)
  (w5, dp)

/-- `SegmentInfo::Finalize`: back-patch the duration when it is positive
and the writer is seekable. `none` models the `false` return on a missing
saved position. -/
def SegmentInfo.Finalize (si : SegmentInfo) (w : MWriter) : Option MWriter :=
  if si.durationPositive then
    if w.seekable then
      match si.durationPos with
      | none => none
      | some dp =>
        some (((w.setPos dp).write (EbmlElementSizeF kMkvDuration)).setPos w.pos)
    else some w
  else some w

/-! ## Cues -/

/-- One `CuePoint`, with the ghost index of the cluster it was created for
and the ghost writer position at creation. `output_block_number_` stays at
its constructor default `true` in every flow of the source, so the model
keeps it implicit. -/
structure CuePoint where
  time : Nat
  track : Nat
  clusterPos : Nat
  blockNumber : Nat
  clusterIndex : Nat
  createPos : Nat
deriving DecidableEq

/-- `CuePoint::PayloadSize`. -/
def CuePoint.PayloadSize (c : CuePoint) : Nat :=
  let sz := EbmlElementSize kMkvCueClusterPosition c.clusterPos +
    EbmlElementSize kMkvCueTrack c.track +
    (if c.blockNumber > 1 then EbmlElementSize kMkvCueBlockNumber c.blockNumber else 0)
  EbmlElementSize kMkvCueTime c.time + (EbmlMasterElementSize kMkvCueTrackPositions + sz)

/-- `CuePoint::Size`. -/
def CuePoint.Size (c : CuePoint) : Nat :=
  EbmlMasterElementSize kMkvCuePoint + c.PayloadSize

/-- `Cues::Write`: the Cues master then every cue point. -/
def CuesWrite (cues : List CuePoint) (w : MWriter) : MWriter :=
  let w1 := w.write (EbmlMasterElementSize kMkvCues)
  cues.foldl (fun wa c => wa.write c.Size) w1

/-! ## Segment -/

/-- `Segment::Mode`. -/
inductive Mode where
  | kLive : Mode
  | kFile : Mode
deriving DecidableEq

/-- The `Segment` class. -/
structure Segment where
  writer : MWriter
  clusters : List Cluster
  frames : List Frame
  tracks : List Track
  seekHead : SeekHead
  segmentInfo : SegmentInfo
  cues : List CuePoint
  hasVideo : Bool
  headerWritten : Bool
  newCluster : Bool
  newCuepoint : Bool
  sizePosition : Nat
  payloadPos : Nat
  mode : Mode
  maxClusterDuration : Nat
  maxClusterSize : Nat
  lastTimestamp : Nat
  outputCues : Bool
  cuesTrack : Nat
deriving DecidableEq

/-- `Segment::Segment(writer)` (with `segment_info_.Init()`). -/
def Segment.init (w : MWriter) : Segment :=
  { writer := w, clusters := [], frames := [], tracks := [],
    seekHead := SeekHead.init, segmentInfo := SegmentInfo.init, cues := [],
    hasVideo := false, headerWritten := false, newCluster := true,
    newCuepoint := false, sizePosition := 0, payloadPos := 0,
    mode := Mode.kFile, maxClusterDuration := 0, maxClusterSize := 0,
    lastTimestamp := 0, outputCues := true, cuesTrack := 0 }

/-- `Segment::AddVideoTrack`: fixed "V_VP8" codec id (5 bytes). -/
def Segment.AddVideoTrack (s : Segment) (width height : Nat) : Segment × Nat :=
  let t : Track := { number := 0, ttype := kVideo, uid := MakeUID,
                     codecIdLen := 5, width := width, height := height,
                     sampleRate := 0, channels := 0 }
  let ts := AddTrack s.tracks t
  ({ s with tracks := ts, hasVideo := true }, ts.length)

/-- `Segment::AddAudioTrack`: fixed "A_VORBIS" codec id (8 bytes). -/
def Segment.AddAudioTrack (s : Segment) (sampleRate channels : Nat) : Segment × Nat :=
  let t : Track := { number := 0, ttype := kAudio, uid := MakeUID,
                     codecIdLen := 8, width := 0, height := 0,
                     sampleRate := sampleRate, channels := channels }
  let ts := AddTrack s.tracks t
  ({ s with tracks := ts }, ts.length)

/-- Replace the last element of a list. -/
def setLast (l : List α) (a : α) : List α := l.dropLast ++ [a]

/-- Unsigned 64-bit subtraction as `Segment::AddFrame` performs it on
`timestamp - cluster_ts`. -/
def sub64 (a b : Nat) : Nat := (a % 2 ^ 64 + (2 ^ 64 - b % 2 ^ 64)) % 2 ^ 64

/-- The value `new_cluster_` holds after the boundary-decision block of
`Segment::AddFrame` (`isVideoKey` is the already-evaluated
`is_key && TrackIsVideo(track_number)`). A persistent flag: when no rule
fires it keeps its previous value, and the constructor starts it at
`true`. -/
def Segment.clusterDecision (s : Segment) (ts : Nat) (isVideoKey : Bool) : Bool :=
  if isVideoKey then true
  else
    match s.clusters.getLast? with
    | none => s.newCluster
    | some c =>
      let clusterTs := c.timecode * s.segmentInfo.timecodeScale % 2 ^ 64
      if s.maxClusterDuration > 0 ∧ sub64 ts clusterTs ≥ s.maxClusterDuration then
        true
      else if s.maxClusterSize > 0 ∧ c.payloadSize ≥ s.maxClusterSize then
        true
      else s.newCluster

/-- The shared tail of `Segment::AddFrame` and of the loop bodies of
`Segment::WriteFramesAll` / `Segment::WriteFramesLessThan`: compute the
relative timecode against the last cluster, create a cue point when one is
armed and the track matches (`Segment::AddCuePoint`), write the
SimpleBlock, then raise `last_timestamp_`. `none` models the dereference
of `cluster_list_[cluster_list_size_-1]` with an empty list. -/
def Segment.writeFrameToCluster (s : Segment) (len tn ts : Nat) (isKey : Bool) :
    Option (Bool × Segment) :=
  match s.clusters.getLast? with
  | none => none
  | some c =>
    let blockTc : Int :=
      Int.ofNat (ts / s.segmentInfo.timecodeScale) - Int.ofNat c.timecode
    let s1 :=
      if s.newCuepoint ∧ s.cuesTrack = tn then
        { s with
          cues := s.cues ++
            [{ time := ts / s.segmentInfo.timecodeScale, track := s.cuesTrack,
               clusterPos := s.writer.pos - s.payloadPos,
               blockNumber := c.blocksAdded + 1,
               clusterIndex := s.clusters.length - 1, createPos := s.writer.pos }],
          newCuepoint := false }
      else s
    match c.AddFrame s.writer len tn blockTc isKey ts with
    | none => some (false, s1)
    | some (w, c1) =>
      let s2 := { s1 with writer := w, clusters := setLast s.clusters c1 }
      some (true, { s2 with lastTimestamp := max s2.lastTimestamp ts })

/-- Write a list of queued frames into the current cluster one by one,
stopping at the first failure (the loop bodies of `WriteFramesAll` /
`WriteFramesLessThan`). -/
def Segment.writeFrameList : List Frame → Segment → Option (Bool × Segment)
  | [], s => some (true, s)
  | f :: rest, s =>
    match s.writeFrameToCluster f.length f.trackNumber f.timestamp f.isKey with
    | none => none
    | some (false, s1) => some (false, s1)
    | some (true, s1) => Segment.writeFrameList rest s1

/-- `Segment::WriteFramesAll`: flush every held frame into the current
cluster, then clear the queue. -/
def Segment.WriteFramesAll (s : Segment) : Option (Bool × Segment) :=
  if s.frames = [] then some (true, s)
  else
    match Segment.writeFrameList s.frames s with
    | none => none
    | some (false, s1) => some (false, s1)
    | some (true, s1) => some (true, { s1 with frames := [] })

/-- The loop of `Segment::WriteFramesLessThan`: starting at index 1, while
the current frame's timestamp is ≤ the limit, the *previous* frame is
written; the returned pair is (frames written, frames left). The final
held frame is never examined as a candidate to write. -/
def flushLtSplit (limit : Nat) : List Frame → List Frame × List Frame
  | [] => ([], [])
  | [f] => ([], [f])
  | f :: g :: rest =>
    if g.timestamp ≤ limit then
      let r := flushLtSplit limit (g :: rest)
      (f :: r.1, r.2)
    else ([], f :: g :: rest)

/-- `Segment::WriteFramesLessThan(timestamp)`. -/
def Segment.WriteFramesLessThan (s : Segment) (limit : Nat) : Option (Bool × Segment) :=
  if s.frames = [] then some (true, s)
  else
    let split := flushLtSplit limit s.frames
    match Segment.writeFrameList split.1 s with
    | none => none
    | some (false, s1) => some (false, s1)
    | some (true, s1) => some (true, { s1 with frames := split.2 })

/-- Short-circuit sequencing of two steps that return a success flag and a
state: the continuation runs only when the first step returned `true`,
mirroring the source's early-return style. -/
def bchain (r : Option (Bool × Segment)) (k : Segment → Option (Bool × Segment)) :
    Option (Bool × Segment) :=
  match r with
  | some (true, s) => k s
  | r => r

/-- The `if (output_cues_) new_cuepoint_ = true;` step of the new-cluster
block. -/
def Segment.armCuepoint (s : Segment) : Segment :=
  if s.outputCues then { s with newCuepoint := true } else s

/-- The base timecode chosen for a new cluster: the new frame's scaled
timestamp, lowered to the oldest held frame's scaled timestamp when that
is smaller. -/
def Segment.newClusterTimecode (s : Segment) (ts : Nat) : Nat :=
  let tc0 := ts / s.segmentInfo.timecodeScale
  match s.frames.head? with
  | some q =>
    let atc := q.timestamp / s.segmentInfo.timecodeScale
    if atc < tc0 then atc else tc0
  | none => tc0

/-- The `if (new_cluster_)` block of `Segment::AddFrame` (entered with
`new_cluster_ = true`): flush held frames below the new timestamp into the
old cluster, pick the new base timecode (lowered to the oldest remaining
held frame's scaled timestamp when smaller), append the cluster, finalize
the previous cluster in file mode, arm the cue flag, clear
`new_cluster_`. -/
def Segment.openCluster (s : Segment) (ts : Nat) : Option (Bool × Segment) :=
  bchain (s.WriteFramesLessThan ts) (fun s1 =>
    if s1.mode = Mode.kFile then
      bchain
        (match s1.clusters.getLast? with
         | none =>
           some (true, { s1 with
             clusters := s1.clusters ++ [Cluster.new (s1.newClusterTimecode ts)] })
         | some oldC =>
           match oldC.Finalize s1.writer with
           | none =>
             some (false, { s1 with
               clusters := s1.clusters ++ [Cluster.new (s1.newClusterTimecode ts)] })
           | some (w, oldC1) =>
             some (true,
               { s1 with
                 writer := w
                 clusters := setLast s1.clusters oldC1 ++
                   [Cluster.new (s1.newClusterTimecode ts)] }))
        (fun s3 => some (true, { s3.armCuepoint with newCluster := false }))
    else
      some (true,
        { s1 with
          clusters := s1.clusters ++ [Cluster.new (s1.newClusterTimecode ts)]
          newCluster := false }))

/-- `Segment::WriteSegmentHeader`: the Segment id, the 8-byte unknown-size
placeholder (position saved), the payload start; in file mode on a
seekable writer, the positive duration sentinel and the SeekHead
placeholder; then the Info and Tracks elements with their seek entries. -/
def Segment.WriteSegmentHeader (s : Segment) : Option (Bool × Segment) :=
  let w0 := s.writer.write 4
  let sizePos := w0.pos
  let w1 := w0.write 8
  let payloadPos := w1.pos
  let fileSeek := s.mode = Mode.kFile ∧ w1.seekable = true
  let si0 := if fileSeek then { s.segmentInfo with durationPositive := true }
             else s.segmentInfo
  let (w2, sh0) := if fileSeek then (s.seekHead.Write w1)
                   else (w1, s.seekHead)
  match sh0.AddSeekEntry kMkvInfo (w2.pos - payloadPos) with
  | none => some (false, { s with writer := w2, sizePosition := sizePos,
                                  payloadPos := payloadPos, segmentInfo := si0,
                                  seekHead := sh0 })
  | some sh1 =>
    let (w3, dp) := si0.Write w2
    match sh1.AddSeekEntry kMkvTracks (w3.pos - payloadPos) with
    | none => some (false, { s with writer := w3, sizePosition := sizePos,
                                    payloadPos := payloadPos,
                                    segmentInfo := { si0 with durationPos := dp },
                                    seekHead := sh1 })
    | some sh2 =>
      let w4 := w3.write (TracksWriteSize s.tracks)
      some (true, { s with writer := w4, sizePosition := sizePos,
                           payloadPos := payloadPos,
                           segmentInfo := { si0 with durationPos := dp },
                           seekHead := sh2, headerWritten := true })

/-- The cues-track auto-selection of `Segment::AddFrame`: the first video
track, else the first track; `none` models the null dereference performed
when no track was added. -/
def Segment.selectCuesTrack (s : Segment) : Option Nat :=
  match s.tracks.find?
      (fun t => ((GetTrackByNumber s.tracks t.number).map
        (fun tr => decide (tr.ttype = kVideo))).getD false) with
  | some t => some t.number
  | none => (s.tracks.head?).map (fun t => t.number)

/-- The lazy-header step at the top of `Segment::AddFrame`: write the
segment header, register the seek entry for the upcoming first cluster,
and auto-select the cues track. -/
def Segment.headerStep (s : Segment) : Option (Bool × Segment) :=
  if s.headerWritten then some (true, s)
  else
    bchain s.WriteSegmentHeader (fun s1 =>
      match s1.seekHead.AddSeekEntry kMkvCluster (s1.writer.pos - s1.payloadPos) with
      | none => some (false, s1)
      | some sh =>
        if s1.outputCues ∧ s1.cuesTrack = 0 then
          match s1.selectCuesTrack with
          | none => none
          | some ct => some (true, { s1 with seekHead := sh, cuesTrack := ct })
        else some (true, { s1 with seekHead := sh }))

/-- The non-buffered main path of `Segment::AddFrame`, entered after the
header step when the frame is not held: evaluate
`is_key && TrackIsVideo(track_number)` (with its short-circuit), run the
boundary decision, open a cluster when the flag is set, flush all held
frames, then write the frame. -/
def Segment.mainPath (s : Segment) (len tn ts : Nat) (isKey : Bool) :
    Option (Bool × Segment) :=
  match (if isKey then TrackIsVideo s.tracks tn else some false) with
  | none => none
  | some ivk =>
    let d := s.clusterDecision ts ivk
    let s1 := { s with newCluster := d }
    bchain (if d then s1.openCluster ts else some (true, s1)) (fun s2 =>
      bchain s2.WriteFramesAll (fun s3 =>
        s3.writeFrameToCluster len tn ts isKey))

/-- `Segment::AddFrame(frame, length, track_number, timestamp, is_key)`.
`none` models undefined behaviour (a null or out-of-bounds dereference on
the path taken); `some (false, s)` the `false` return. -/
def Segment.AddFrame (s : Segment) (len tn ts : Nat) (isKey : Bool) :
    Option (Bool × Segment) :=
  bchain s.headerStep (fun s1 =>
    if s1.hasVideo then
      match TrackIsAudio s1.tracks tn with
      | none => none
      | some true =>
        some (true, { s1 with frames := s1.frames ++
          [{ length := len, trackNumber := tn, timestamp := ts, isKey := isKey }] })
      | some false => s1.mainPath len tn ts isKey
    else s1.mainPath len tn ts isKey)

/-- The duration update at the top of `Segment::Finalize`:
`duration = last_timestamp / timecode_scale` as a double, whose only
observable trace is its sign. -/
def SegmentInfo.withDuration (si : SegmentInfo) (last : Nat) : SegmentInfo :=
  { si with durationPositive := decide (0 < last) }

/-- `Segment::Finalize`: flush held frames, finalize the last cluster in
file mode, back-patch the duration, add the Cues seek entry, write the
Cues, finalize the SeekHead, back-patch the outer segment size. -/
def Segment.Finalize (s0 : Segment) : Option (Bool × Segment) :=
  bchain s0.WriteFramesAll (fun s =>
    if s.mode = Mode.kFile then
      bchain
        (match s.clusters.getLast? with
         | none => some (true, s)
         | some c =>
           match c.Finalize s.writer with
           | none => some (false, s)
           | some (w, c1) =>
             some (true, { s with writer := w, clusters := setLast s.clusters c1 }))
        (fun s1 =>
          match (s1.segmentInfo.withDuration s1.lastTimestamp).Finalize s1.writer with
          | none => some (false, { s1 with
              segmentInfo := s1.segmentInfo.withDuration s1.lastTimestamp })
          | some w2 =>
            match s1.seekHead.AddSeekEntry kMkvCues (w2.pos - s1.payloadPos) with
            | none => some (false, { s1 with
                segmentInfo := s1.segmentInfo.withDuration s1.lastTimestamp
                writer := w2 })
            | some sh =>
              if (sh.Finalize (CuesWrite s1.cues w2)).seekable then
                some (true, { s1 with
                  segmentInfo := s1.segmentInfo.withDuration s1.lastTimestamp
                  seekHead := sh
                  writer := (((sh.Finalize (CuesWrite s1.cues w2)).setPos
                    s1.sizePosition).write 8).setPos
                    (sh.Finalize (CuesWrite s1.cues w2)).pos })
              else
                some (true, { s1 with
                  segmentInfo := s1.segmentInfo.withDuration s1.lastTimestamp
                  seekHead := sh
                  writer := sh.Finalize (CuesWrite s1.cues w2) }))
    else some (true, s))

/-- Feed a list of frames to `Segment::AddFrame`, requiring every call to
return `true`. -/
def runFrames (s : Segment) : List Frame → Option Segment
  | [] => some s
  | f :: fs =>
    match s.AddFrame f.length f.trackNumber f.timestamp f.isKey with
    | some (true, s1) => runFrames s1 fs
    | _ => none

/-! ## Spec-side comparison definitions

These two definitions follow the words of the claims being checked, not
the source; they exist only to be compared against the source-derived
functions above. -/

/-- The set of held frames that claim C5's words describe: those queued
frames whose immediate successor in the queue has timestamp ≤ `limit`
(successors are read off by zipping the queue with its own tail). -/
def specFlushLt (limit : Nat) (q : List Frame) : List Frame :=
  ((q.zip q.tail).filter (fun p => decide (p.2.timestamp ≤ limit))).map Prod.fst

/-- The cluster-boundary condition that claim C4's words describe: the
frame is a video key-frame; or a cluster exists, the duration cap is
positive and the timestamp minus the cluster's absolute nanosecond time
(ordinary integer subtraction) reaches it; or a cluster exists, the size
cap is positive and the cluster payload reaches it. -/
def specNewCluster (s : Segment) (tn ts : Nat) (isKey : Bool) : Bool :=
  (isKey && ((TrackIsVideo s.tracks tn).getD false)) ||
  (match s.clusters.getLast? with
   | some c =>
     (decide (s.maxClusterDuration > 0) &&
      decide ((ts : Int) - ((c.timecode * s.segmentInfo.timecodeScale : Nat) : Int) ≥
        (s.maxClusterDuration : Int))) ||
     (decide (s.maxClusterSize > 0) && decide (c.payloadSize ≥ s.maxClusterSize))
   | none => false)

/-! ## Invariant vocabulary -/

/-- Claim C6's per-cluster invariant: the base timecode is at most the
scaled timestamp of every block written into the cluster. -/
def clusterOk (scale : Nat) (c : Cluster) : Prop :=
  ∀ b ∈ c.blocks, c.timecode ≤ b.timestampNs / scale

/-- The inductive invariant behind claim C6, at future-timestamp lower
bound `t` (every frame submitted so far has timestamp ≤ `t`): all clusters
satisfy `clusterOk`, the hold queue is sorted, bounded by `t`, and every
held frame is representable in the current cluster. -/
def SegInv (s : Segment) (t : Nat) : Prop :=
  (∀ c ∈ s.clusters, clusterOk s.segmentInfo.timecodeScale c) ∧
  s.frames.Pairwise (fun a b => a.timestamp ≤ b.timestamp) ∧
  (∀ f ∈ s.frames, f.timestamp ≤ t) ∧
  (∀ c, s.clusters.getLast? = some c →
    c.timecode ≤ t / s.segmentInfo.timecodeScale ∧
    ∀ f ∈ s.frames, c.timecode ≤ f.timestamp / s.segmentInfo.timecodeScale)

/-! ## Concrete fixtures

Small concrete muxing sessions used by the counterexamples and witnesses
below. `wFile` is a seekable sink, `wLive` a non-seekable one. -/

def wFile : MWriter := ⟨0, 0, true⟩

def wLive : MWriter := ⟨0, 0, false⟩

/-- File-mode segment with one video track (number 1). -/
def segVFile : Segment := ((Segment.init wFile).AddVideoTrack 320 240).1

/-- File-mode segment with a video track (1) and an audio track (2). -/
def segAV : Segment := ((segVFile).AddAudioTrack 44100 2).1

/-- File-mode segment with a single audio track (number 1). -/
def segAudioOnly : Segment := ((Segment.init wFile).AddAudioTrack 44100 2).1

/-- Live-mode segment with one video track (number 1). -/
def segLive : Segment := ({ Segment.init wLive with mode := Mode.kLive }.AddVideoTrack 320 240).1

/-- Spec scenario 3: video key at 0, audio at 10 ms and 20 ms, video key
at 33 ms. -/
def scenario3Frames : List Frame :=
  [⟨1, 1, 0, true⟩, ⟨1, 2, 10000000, false⟩, ⟨1, 2, 20000000, false⟩,
   ⟨1, 1, 33000000, true⟩]

def scenario3 : Option Segment := runFrames segAV scenario3Frames

/-- The state just before scenario 3's second key-frame: two audio frames
held in the queue. -/
def queuedState : Option Segment := runFrames segAV (scenario3Frames.take 3)

/-- Run `Segment::Finalize`, requiring it to return `true`. -/
def finAfter (o : Option Segment) : Option Segment :=
  o.bind (fun s =>
    match s.Finalize with
    | some (true, s2) => some s2
    | _ => none)

/-- File mode: one key-frame written, then finalized. -/
def fileFinalized : Option Segment := finAfter (runFrames segVFile [⟨1, 1, 0, true⟩])

/-- Live mode: one key-frame written, then finalized. -/
def liveFinalized : Option Segment := finAfter (runFrames segLive [⟨1, 1, 0, true⟩])

/-- A cluster-duration cap of `2 ^ 64 - 1` with one cluster at base
timecode 1 (1 ms at the default scale). -/
def c10Seg : Option Segment :=
  runFrames ({ segVFile with maxClusterDuration := 2 ^ 64 - 1 }) [⟨1, 1, 1000000, true⟩]

/-- A hold queue that is not timestamp-sorted (legal: the spec only orders
frames per track, and held audio of two tracks may interleave). -/
def cexQueue : List Frame := [⟨1, 2, 0, false⟩, ⟨1, 2, 100, false⟩, ⟨1, 2, 50, false⟩]

/-- Extract the segment from a successful run (the fixtures above are all
successful; the fallback is never reached). -/
def getSeg (o : Option Segment) : Segment := o.getD (Segment.init wFile)

/-- File-mode segment with a video track (1) and two audio tracks (2, 3). -/
def segAVA : Segment := (segAV.AddAudioTrack 44100 2).1

/-- A reachable state whose hold queue is not timestamp-sorted: audio of
track 3 arrives between track 2's frames. -/
def c5S : Segment :=
  getSeg (runFrames segAVA
    [⟨1, 1, 0, true⟩, ⟨1, 2, 0, false⟩, ⟨1, 2, 100, false⟩, ⟨1, 3, 50, false⟩])

def c5C : Cluster := c5S.clusters.getLast?.getD (Cluster.new 0)

def c5S2 : Segment := getSeg ((c5S.WriteFramesLessThan 60).map Prod.snd)

/-- Audio-only session after one frame (witness state for C4). -/
def c4wS : Segment := getSeg (runFrames segAudioOnly [⟨1, 1, 0, false⟩])

def c4wS2 : Segment := getSeg ((c4wS.AddFrame 1 1 5000000 false).map Prod.snd)

/-- A state with an armed cue flag and one fresh cluster (witness state
for C3). -/
def c3S : Segment :=
  { Segment.init wFile with
    clusters := [Cluster.new 5]
    newCuepoint := true
    cuesTrack := 1
    headerWritten := true
    payloadPos := 12
    writer := ⟨100, 100, true⟩ }

def c3S2 : Segment :=
  getSeg ((c3S.writeFrameToCluster 1 1 7000000 true).map Prod.snd)

/-- The state after scenario 3's first frame (witness state for C7/C9). -/
def c7S1 : Segment := getSeg ((segAV.AddFrame 1 1 0 true).map Prod.snd)

/-- The queued two-audio state, then scenario 3's closing key-frame
(witness states for C1). -/
def c1S : Segment := getSeg queuedState

def c1S2 : Segment := getSeg ((c1S.AddFrame 1 1 33000000 true).map Prod.snd)

/-- The finalized file-mode state and its last cluster (witness states for
C2). -/
def c2S : Segment := getSeg fileFinalized

def c2C : Cluster := c2S.clusters.getLast?.getD (Cluster.new 0)

/-- The duration-cap state and its cluster (witness states for C10). -/
def c10S : Segment := getSeg c10Seg

def c10C : Cluster := c10S.clusters.getLast?.getD (Cluster.new 0)

/-! ## List helpers for the last-cluster discipline -/

theorem getLast?_some_decomp {α : Type} {l : List α} {c : α}
    (h : l.getLast? = some c) : l = l.dropLast ++ [c] := by
  have hne : l ≠ [] := by rintro rfl; simp at h
  rw [List.getLast?_eq_getLast l hne, Option.some.injEq] at h
  rw [← h]
  exact (List.dropLast_append_getLast hne).symm

theorem setLast_getLast? {α : Type} (l : List α) (a : α) :
    (setLast l a).getLast? = some a := by
  simp [setLast, List.getLast?_concat]

theorem setLast_dropLast {α : Type} (l : List α) (a : α) :
    (setLast l a).dropLast = l.dropLast := by
  simp [setLast, List.dropLast_concat]

theorem setLast_length {α : Type} {l : List α} {c : α}
    (h : l.getLast? = some c) (a : α) : (setLast l a).length = l.length := by
  conv_rhs => rw [getLast?_some_decomp h]
  simp [setLast]

theorem mem_of_mem_setLast {α : Type} {l : List α} {a x : α}
    (h : x ∈ setLast l a) : x ∈ l.dropLast ∨ x = a := by
  simpa [setLast] using h

theorem mem_of_mem_dropLast {α : Type} {l : List α} {x : α}
    (h : x ∈ l.dropLast) : x ∈ l :=
  (List.dropLast_sublist l).subset h

/-! ## Cluster-level lemmas -/

theorem Cluster.AddFrame_eq_none {c : Cluster} {w : MWriter} {len tn : Nat}
    {tc : Int} {k : Bool} {ts : Nat} (h : c.finalized = true) :
    c.AddFrame w len tn tc k ts = none := by
  simp [Cluster.AddFrame, h]

theorem Cluster.AddFrame_isSome {c : Cluster} {w : MWriter} {len tn : Nat}
    {tc : Int} {k : Bool} {ts : Nat} (h : c.finalized = false) :
    (c.AddFrame w len tn tc k ts).isSome := by
  simp [Cluster.AddFrame, h]

theorem Cluster.AddFrame_eq_some {c : Cluster} {w : MWriter} {len tn : Nat}
    {tc : Int} {k : Bool} {ts : Nat} {w1 : MWriter} {c1 : Cluster}
    (h : c.AddFrame w len tn tc k ts = some (w1, c1)) :
    c.finalized = false ∧ c1.finalized = false ∧ c1.timecode = c.timecode ∧
      c1.blocks = c.blocks ++
        [{ trackNumber := tn, timestampNs := ts, relTimecode := tc,
           isKey := k, length := len }] ∧
      c1.blocksAdded = c.blocksAdded + 1 ∧
      (c.headerWritten = false → c1.headerPos = some w.pos) := by
  by_cases hf : c.finalized
  · simp [Cluster.AddFrame, hf] at h
  · by_cases hw : c.headerWritten
    · simp only [Cluster.AddFrame, hf, if_false, hw, if_true, Option.some.injEq,
        Prod.mk.injEq, Bool.false_eq_true] at h
      obtain ⟨-, h2⟩ := h
      subst h2
      simp [hf, hw]
    · simp only [Cluster.AddFrame, Cluster.WriteClusterHeader, hf, hw, if_false,
        Option.some.injEq, Prod.mk.injEq, Bool.false_eq_true] at h
      obtain ⟨-, h2⟩ := h
      subst h2
      simp [hf]

theorem Cluster.Finalize_eq_none {c : Cluster} {w : MWriter}
    (h : c.finalized = true) : c.Finalize w = none := by
  simp [Cluster.Finalize, h]

theorem Cluster.Finalize_eq_some {c : Cluster} {w : MWriter} {w1 : MWriter}
    {c1 : Cluster} (h : c.Finalize w = some (w1, c1)) :
    c.finalized = false ∧ c1.finalized = true ∧ c1.timecode = c.timecode ∧
      c1.blocks = c.blocks := by
  by_cases hf : c.finalized
  · simp [Cluster.Finalize, hf] at h
  · cases hsp : c.sizePosition with
    | none => simp [Cluster.Finalize, hf, hsp] at h
    | some sp =>
      simp only [Cluster.Finalize, hf, hsp, if_false, Option.some.injEq,
        Prod.mk.injEq, Bool.false_eq_true] at h
      obtain ⟨-, h2⟩ := h
      subst h2
      simp [hf]

/-! ## Shape lemmas for the shared block-writing tail -/

theorem wftc_some_true {s : Segment} {len tn ts : Nat} {k : Bool} {s' : Segment}
    (h : s.writeFrameToCluster len tn ts k = some (true, s')) :
    ∃ c c1, s.clusters.getLast? = some c ∧ c.finalized = false ∧
      c1.finalized = false ∧ c1.timecode = c.timecode ∧
      c1.blocks = c.blocks ++
        [mkBlock c.timecode s.segmentInfo.timecodeScale len tn ts k] ∧
      s'.clusters = setLast s.clusters c1 ∧
      s'.frames = s.frames ∧ s'.segmentInfo = s.segmentInfo ∧
      s'.tracks = s.tracks ∧ s'.mode = s.mode ∧ s'.hasVideo = s.hasVideo ∧
      s'.payloadPos = s.payloadPos ∧ s'.cuesTrack = s.cuesTrack ∧
      s'.maxClusterDuration = s.maxClusterDuration ∧
      s'.maxClusterSize = s.maxClusterSize ∧
      s'.newCluster = s.newCluster ∧ s'.headerWritten = s.headerWritten ∧
      s'.outputCues = s.outputCues ∧
      s'.lastTimestamp = max s.lastTimestamp ts := by
  cases hm : s.clusters.getLast? with
  | none => simp [Segment.writeFrameToCluster, hm] at h
  | some c =>
    by_cases hq : s.newCuepoint ∧ s.cuesTrack = tn
    · simp only [Segment.writeFrameToCluster, hm, if_pos hq] at h
      split at h
      · simp at h
      · next w c1 heq =>
        simp only [Option.some.injEq, Prod.mk.injEq, true_and] at h
        subst h
        obtain ⟨hcf, hc1f, hc1tc, hc1b, -, -⟩ := Cluster.AddFrame_eq_some heq
        exact ⟨c, c1, rfl, hcf, hc1f, hc1tc, by simpa [mkBlock] using hc1b,
          rfl, rfl, rfl, rfl, rfl, rfl, rfl, rfl, rfl, rfl, rfl, rfl, rfl, rfl⟩
    · simp only [Segment.writeFrameToCluster, hm, if_neg hq] at h
      split at h
      · simp at h
      · next w c1 heq =>
        simp only [Option.some.injEq, Prod.mk.injEq, true_and] at h
        subst h
        obtain ⟨hcf, hc1f, hc1tc, hc1b, -, -⟩ := Cluster.AddFrame_eq_some heq
        exact ⟨c, c1, rfl, hcf, hc1f, hc1tc, by simpa [mkBlock] using hc1b,
          rfl, rfl, rfl, rfl, rfl, rfl, rfl, rfl, rfl, rfl, rfl, rfl, rfl, rfl⟩

theorem wftc_some_false {s : Segment} {len tn ts : Nat} {k : Bool} {s' : Segment}
    (h : s.writeFrameToCluster len tn ts k = some (false, s')) :
    s'.writer = s.writer ∧ s'.clusters = s.clusters ∧ s'.frames = s.frames ∧
      s'.segmentInfo = s.segmentInfo ∧ s'.lastTimestamp = s.lastTimestamp ∧
      s'.mode = s.mode ∧
      ∃ c, s.clusters.getLast? = some c ∧ c.finalized = true := by
  cases hm : s.clusters.getLast? with
  | none => simp [Segment.writeFrameToCluster, hm] at h
  | some c =>
    by_cases hq : s.newCuepoint ∧ s.cuesTrack = tn
    · simp only [Segment.writeFrameToCluster, hm, if_pos hq] at h
      split at h
      · next heq =>
        simp only [Option.some.injEq, Prod.mk.injEq, true_and] at h
        subst h
        refine ⟨rfl, rfl, rfl, rfl, rfl, rfl, c, rfl, ?_⟩
        by_contra hcf
        have hs := @Cluster.AddFrame_isSome c s.writer len tn
          (Int.ofNat (ts / s.segmentInfo.timecodeScale) - Int.ofNat c.timecode)
          k ts (by simpa using hcf)
        rw [heq] at hs
        simp at hs
      · simp at h
    · simp only [Segment.writeFrameToCluster, hm, if_neg hq] at h
      split at h
      · next heq =>
        simp only [Option.some.injEq, Prod.mk.injEq, true_and] at h
        subst h
        refine ⟨rfl, rfl, rfl, rfl, rfl, rfl, c, rfl, ?_⟩
        by_contra hcf
        have hs := @Cluster.AddFrame_isSome c s.writer len tn
          (Int.ofNat (ts / s.segmentInfo.timecodeScale) - Int.ofNat c.timecode)
          k ts (by simpa using hcf)
        rw [heq] at hs
        simp at hs
      · simp at h

theorem wftc_mono {s : Segment} {len tn ts : Nat} {k : Bool} {b : Bool}
    {s' : Segment} (h : s.writeFrameToCluster len tn ts k = some (b, s')) :
    s.lastTimestamp ≤ s'.lastTimestamp := by
  cases b
  · exact (wftc_some_false h).2.2.2.2.1.ge
  · obtain ⟨c, c1, -, -, -, -, -, -, -, -, -, -, -, -, -, -, -, -, -, -, hl⟩ :=
      wftc_some_true h
    rw [hl]
    exact le_max_left _ _

/-! ## The flush-loop split -/

theorem flushLtSplit_append : ∀ (limit : Nat) (q : List Frame),
    (flushLtSplit limit q).1 ++ (flushLtSplit limit q).2 = q
  | _, [] => rfl
  | _, [_] => rfl
  | limit, f :: g :: rest => by
    by_cases hg : g.timestamp ≤ limit
    · have ih := flushLtSplit_append limit (g :: rest)
      simp only [flushLtSplit, if_pos hg]
      simpa using ih
    · simp [flushLtSplit, if_neg hg]

theorem flushLtSplit_snd_ne_nil : ∀ (limit : Nat) (q : List Frame), q ≠ [] →
    (flushLtSplit limit q).2 ≠ []
  | _, [], h => absurd rfl h
  | _, [f], _ => by simp [flushLtSplit]
  | limit, f :: g :: rest, _ => by
    by_cases hg : g.timestamp ≤ limit
    · have ih := flushLtSplit_snd_ne_nil limit (g :: rest) (by simp)
      simpa [flushLtSplit, if_pos hg] using ih
    · simp [flushLtSplit, if_neg hg]

theorem flushLtSplit_sorted_spec : ∀ (limit : Nat) (q : List Frame),
    q.Pairwise (fun a b => a.timestamp ≤ b.timestamp) →
    (flushLtSplit limit q).1 = specFlushLt limit q
  | _, [], _ => rfl
  | _, [_], _ => rfl
  | limit, f :: g :: rest, hp => by
    by_cases hg : g.timestamp ≤ limit
    · have ih := flushLtSplit_sorted_spec limit (g :: rest) (List.Pairwise.of_cons hp)
      simp only [flushLtSplit, if_pos hg, specFlushLt] at ih ⊢
      simp [ih, hg]
    · simp only [flushLtSplit, if_neg hg, specFlushLt]
      have hge : ∀ y ∈ rest, g.timestamp ≤ y.timestamp :=
        fun y hy => (List.pairwise_cons.mp (List.Pairwise.of_cons hp)).1 y hy
      have hnil : ((g :: rest).zip rest).filter
          (fun p => decide (p.2.timestamp ≤ limit)) = [] := by
        rw [List.filter_eq_nil_iff]
        intro p hp2
        have hmem := (List.of_mem_zip hp2).2
        have := hge p.2 hmem
        simp only [decide_eq_true_eq]
        omega
      simp [hnil, hg]

/-! ## writeFrameList lemmas -/

theorem writeFrameList_some_true : ∀ (q : List Frame) (s s' : Segment) (c : Cluster),
    Segment.writeFrameList q s = some (true, s') →
    s.clusters.getLast? = some c →
    ∃ c1, s'.clusters.getLast? = some c1 ∧ c1.timecode = c.timecode ∧
      ((q = [] ∧ c1 = c) ∨ c1.finalized = false) ∧
      c1.blocks = c.blocks ++ q.map (fun f =>
        mkBlock c.timecode s.segmentInfo.timecodeScale
          f.length f.trackNumber f.timestamp f.isKey) ∧
      s'.clusters.dropLast = s.clusters.dropLast ∧
      s'.clusters.length = s.clusters.length ∧
      s'.frames = s.frames ∧ s'.segmentInfo = s.segmentInfo ∧
      s'.tracks = s.tracks ∧ s'.mode = s.mode ∧ s'.hasVideo = s.hasVideo ∧
      s'.newCluster = s.newCluster ∧ s'.headerWritten = s.headerWritten ∧
      s'.outputCues = s.outputCues ∧ s'.payloadPos = s.payloadPos ∧
      s'.cuesTrack = s.cuesTrack ∧
      s'.maxClusterDuration = s.maxClusterDuration ∧
      s'.maxClusterSize = s.maxClusterSize ∧
      s.lastTimestamp ≤ s'.lastTimestamp
  | [], s, s', c, h, hm => by
    simp only [Segment.writeFrameList, Option.some.injEq, Prod.mk.injEq,
      true_and] at h
    subst h
    exact ⟨c, hm, rfl, Or.inl ⟨rfl, rfl⟩, by simp, rfl, rfl, rfl, rfl, rfl,
      rfl, rfl, rfl, rfl, rfl, rfl, rfl, rfl, rfl, le_refl _⟩
  | f :: rest, s, s', c, h, hm => by
    simp only [Segment.writeFrameList] at h
    split at h
    · exact absurd h (by simp)
    · exact absurd h (by simp)
    · next s1 heq =>
      obtain ⟨c0, c1, hm0, hc0f, hc1f, hc1tc, hc1b, hcl, hfr, hsi, htr, hmo,
        hhv, hpp, hct, hmd, hms, hnc, hhw, hoc, hlt⟩ := wftc_some_true heq
      rw [hm] at hm0
      injection hm0 with hm0
      subst hm0
      have hm1 : s1.clusters.getLast? = some c1 := by
        rw [hcl]; exact setLast_getLast? _ _
      obtain ⟨c2, hm2, hc2tc, hc2f, hc2b, hcl2, hlen2, hfr2, hsi2, htr2, hmo2,
        hhv2, hnc2, hhw2, hoc2, hpp2, hct2, hmd2, hms2, hlt2⟩ :=
        writeFrameList_some_true rest s1 s' c1 h hm1
      refine ⟨c2, hm2, by rw [hc2tc, hc1tc], Or.inr ?_, ?_, ?_, ?_, ?_, ?_, ?_,
        ?_, ?_, ?_, ?_, ?_, ?_, ?_, ?_, ?_, ?_⟩
      · rcases hc2f with ⟨-, rfl⟩ | hf
        · exact hc1f
        · exact hf
      · rw [hc2b, hc1b, hc1tc, hsi]
        simp [List.map_cons, List.append_assoc]
      · rw [hcl2, hcl, setLast_dropLast]
      · rw [hlen2, hcl, setLast_length hm]
      · rw [hfr2, hfr]
      · rw [hsi2, hsi]
      · rw [htr2, htr]
      · rw [hmo2, hmo]
      · rw [hhv2, hhv]
      · rw [hnc2, hnc]
      · rw [hhw2, hhw]
      · rw [hoc2, hoc]
      · rw [hpp2, hpp]
      · rw [hct2, hct]
      · rw [hmd2, hmd]
      · rw [hms2, hms]
      · calc s.lastTimestamp ≤ s1.lastTimestamp := by rw [hlt]; exact le_max_left _ _
          _ ≤ s'.lastTimestamp := hlt2

theorem writeFrameList_mono : ∀ (q : List Frame) (s : Segment) (b : Bool)
    (s' : Segment), Segment.writeFrameList q s = some (b, s') →
    s.lastTimestamp ≤ s'.lastTimestamp
  | [], s, b, s', h => by
    simp only [Segment.writeFrameList, Option.some.injEq, Prod.mk.injEq] at h
    rw [← h.2]
  | f :: rest, s, b, s', h => by
    simp only [Segment.writeFrameList] at h
    split at h
    · exact absurd h (by simp)
    · next s1 heq =>
      simp only [Option.some.injEq, Prod.mk.injEq] at h
      rw [← h.2]
      exact wftc_mono heq
    · next s1 heq =>
      exact le_trans (wftc_mono heq) (writeFrameList_mono rest s1 b s' h)

theorem writeFrameList_cons_clusters_isSome {f : Frame} {rest : List Frame}
    {s : Segment} {r : Bool × Segment}
    (h : Segment.writeFrameList (f :: rest) s = some r) :
    (s.clusters.getLast?).isSome := by
  cases hm : s.clusters.getLast? with
  | none =>
    simp only [Segment.writeFrameList, Segment.writeFrameToCluster, hm] at h
    cases h
  | some c => rfl

/-! ## WriteFramesAll and WriteFramesLessThan lemmas -/

theorem WriteFramesAll_some_true {s s' : Segment}
    (h : s.WriteFramesAll = some (true, s')) :
    s'.frames = [] ∧
    (s.frames = [] → s' = s) ∧
    (∀ c, s.clusters.getLast? = some c →
      ∃ c1, s'.clusters.getLast? = some c1 ∧ c1.timecode = c.timecode ∧
        ((s.frames = [] ∧ c1 = c) ∨ c1.finalized = false) ∧
        c1.blocks = c.blocks ++ s.frames.map (fun f =>
          mkBlock c.timecode s.segmentInfo.timecodeScale
            f.length f.trackNumber f.timestamp f.isKey) ∧
        s'.clusters.dropLast = s.clusters.dropLast ∧
        s'.clusters.length = s.clusters.length ∧
        s'.segmentInfo = s.segmentInfo ∧ s'.tracks = s.tracks ∧
        s'.mode = s.mode ∧ s'.hasVideo = s.hasVideo ∧
        s'.newCluster = s.newCluster ∧ s'.headerWritten = s.headerWritten ∧
        s'.outputCues = s.outputCues ∧ s'.payloadPos = s.payloadPos ∧
        s'.cuesTrack = s.cuesTrack ∧
        s'.maxClusterDuration = s.maxClusterDuration ∧
        s'.maxClusterSize = s.maxClusterSize ∧
        s.lastTimestamp ≤ s'.lastTimestamp) := by
  by_cases hf : s.frames = []
  · simp only [Segment.WriteFramesAll, if_pos hf, Option.some.injEq,
      Prod.mk.injEq, true_and] at h
    subst h
    refine ⟨hf, fun _ => rfl, fun c hm => ⟨c, hm, rfl, Or.inl ⟨hf, rfl⟩, ?_,
      rfl, rfl, rfl, rfl, rfl, rfl, rfl, rfl, rfl, rfl, rfl, rfl, rfl,
      le_refl _⟩⟩
    simp [hf]
  · simp only [Segment.WriteFramesAll, if_neg hf] at h
    split at h
    · exact absurd h (by simp)
    · exact absurd h (by simp)
    · next s1 heq =>
      simp only [Option.some.injEq, Prod.mk.injEq, true_and] at h
      subst h
      refine ⟨rfl, fun hc => absurd hc hf, fun c hm => ?_⟩
      obtain ⟨c1, hm1, htc, hfin, hb, hdl, hlen, hfr, hsi, htr, hmo, hhv,
        hnc, hhw, hoc, hpp, hct, hmd, hms, hlt⟩ :=
        writeFrameList_some_true s.frames s s1 c heq hm
      refine ⟨c1, hm1, htc, Or.inr ?_, hb, hdl, hlen, hsi, htr, hmo, hhv,
        hnc, hhw, hoc, hpp, hct, hmd, hms, hlt⟩
      rcases hfin with ⟨he, -⟩ | hx
      · exact absurd he hf
      · exact hx

theorem WriteFramesAll_mono {s : Segment} {b : Bool} {s' : Segment}
    (h : s.WriteFramesAll = some (b, s')) :
    s.lastTimestamp ≤ s'.lastTimestamp := by
  by_cases hf : s.frames = []
  · simp only [Segment.WriteFramesAll, if_pos hf, Option.some.injEq,
      Prod.mk.injEq] at h
    rw [← h.2]
  · simp only [Segment.WriteFramesAll, if_neg hf] at h
    split at h
    · exact absurd h (by simp)
    · next s1 heq =>
      simp only [Option.some.injEq, Prod.mk.injEq] at h
      rw [← h.2]
      exact writeFrameList_mono _ _ _ _ heq
    · next s1 heq =>
      simp only [Option.some.injEq, Prod.mk.injEq] at h
      rw [← h.2]
      simpa using writeFrameList_mono _ _ _ _ heq

theorem WriteFramesLessThan_some_true {s : Segment} {limit : Nat} {s' : Segment}
    (h : s.WriteFramesLessThan limit = some (true, s')) :
    s'.frames = (flushLtSplit limit s.frames).2 ∧
    s'.segmentInfo = s.segmentInfo ∧ s'.tracks = s.tracks ∧
    s'.mode = s.mode ∧ s'.hasVideo = s.hasVideo ∧
    s'.newCluster = s.newCluster ∧ s'.headerWritten = s.headerWritten ∧
    s'.outputCues = s.outputCues ∧ s'.payloadPos = s.payloadPos ∧
    s'.cuesTrack = s.cuesTrack ∧
    s'.maxClusterDuration = s.maxClusterDuration ∧
    s'.maxClusterSize = s.maxClusterSize ∧
    s.lastTimestamp ≤ s'.lastTimestamp ∧
    (s.clusters.getLast? = none → s'.clusters = s.clusters) ∧
    (∀ c, s.clusters.getLast? = some c →
      ∃ c1, s'.clusters.getLast? = some c1 ∧ c1.timecode = c.timecode ∧
        c1.blocks = c.blocks ++ (flushLtSplit limit s.frames).1.map (fun f =>
          mkBlock c.timecode s.segmentInfo.timecodeScale
            f.length f.trackNumber f.timestamp f.isKey) ∧
        s'.clusters.dropLast = s.clusters.dropLast ∧
        s'.clusters.length = s.clusters.length) := by
  by_cases hf : s.frames = []
  · simp only [Segment.WriteFramesLessThan, if_pos hf, Option.some.injEq,
      Prod.mk.injEq, true_and] at h
    subst h
    refine ⟨by simp [hf, flushLtSplit], rfl, rfl, rfl, rfl, rfl, rfl, rfl,
      rfl, rfl, rfl, rfl, le_refl _, fun _ => rfl, fun c hm =>
        ⟨c, hm, rfl, by simp [hf, flushLtSplit], rfl, rfl⟩⟩
  · simp only [Segment.WriteFramesLessThan, if_neg hf] at h
    split at h
    · exact absurd h (by simp)
    · exact absurd h (by simp)
    · next s1 heq =>
      simp only [Option.some.injEq, Prod.mk.injEq, true_and] at h
      subst h
      cases hm : s.clusters.getLast? with
      | none =>
        cases hsp : (flushLtSplit limit s.frames).1 with
        | nil =>
          rw [hsp] at heq
          simp only [Segment.writeFrameList, Option.some.injEq, Prod.mk.injEq,
            true_and] at heq
          subst heq
          exact ⟨rfl, rfl, rfl, rfl, rfl, rfl, rfl, rfl, rfl, rfl, rfl, rfl,
            le_refl _, fun _ => rfl, fun c hmc => absurd hmc (by simp)⟩
        | cons f rest =>
          rw [hsp] at heq
          have := writeFrameList_cons_clusters_isSome heq
          rw [hm] at this
          simp at this
      | some c =>
        obtain ⟨c1, hm1, htc, hfin, hb, hdl, hlen, hfr, hsi, htr, hmo, hhv,
          hnc, hhw, hoc, hpp, hct, hmd, hms, hlt⟩ :=
          writeFrameList_some_true _ s s1 c heq hm
        exact ⟨rfl, hsi, htr, hmo, hhv, hnc, hhw, hoc, hpp, hct, hmd,
          hms, hlt, fun hx => absurd hx (by simp),
          fun c2 hmc => by
            injection hmc with hmc
            subst hmc
            exact ⟨c1, hm1, htc, hb, hdl, hlen⟩⟩

theorem WriteFramesLessThan_mono {s : Segment} {limit : Nat} {b : Bool}
    {s' : Segment} (h : s.WriteFramesLessThan limit = some (b, s')) :
    s.lastTimestamp ≤ s'.lastTimestamp := by
  by_cases hf : s.frames = []
  · simp only [Segment.WriteFramesLessThan, if_pos hf, Option.some.injEq,
      Prod.mk.injEq] at h
    rw [← h.2]
  · simp only [Segment.WriteFramesLessThan, if_neg hf] at h
    split at h
    · exact absurd h (by simp)
    · next s1 heq =>
      simp only [Option.some.injEq, Prod.mk.injEq] at h
      rw [← h.2]
      exact writeFrameList_mono _ _ _ _ heq
    · next s1 heq =>
      simp only [Option.some.injEq, Prod.mk.injEq] at h
      rw [← h.2]
      simpa using writeFrameList_mono _ _ _ _ heq

/-! ## bchain lemmas -/

theorem bchain_some_true {r : Option (Bool × Segment)}
    {k : Segment → Option (Bool × Segment)} {s' : Segment}
    (h : bchain r k = some (true, s')) :
    ∃ s1, r = some (true, s1) ∧ k s1 = some (true, s') := by
  cases r with
  | none => cases h
  | some p =>
    obtain ⟨b, s1⟩ := p
    cases b
    · simp [bchain] at h
    · exact ⟨s1, rfl, h⟩

theorem bchain_elim {r : Option (Bool × Segment)}
    {k : Segment → Option (Bool × Segment)} {b : Bool} {s' : Segment}
    (h : bchain r k = some (b, s')) :
    (∃ s1, r = some (true, s1) ∧ k s1 = some (b, s')) ∨
      (b = false ∧ r = some (false, s')) := by
  cases r with
  | none => cases h
  | some p =>
    obtain ⟨b0, s1⟩ := p
    cases b0
    · simp only [bchain] at h
      right
      injection h with h
      injection h with h1 h2
      subst h2
      exact ⟨h1.symm, rfl⟩
    · exact Or.inl ⟨s1, rfl, h⟩

/-! ## openCluster lemmas -/

theorem armCuepoint_core (s : Segment) :
    s.armCuepoint.clusters = s.clusters ∧ s.armCuepoint.frames = s.frames ∧
    s.armCuepoint.segmentInfo = s.segmentInfo ∧
    s.armCuepoint.tracks = s.tracks ∧ s.armCuepoint.mode = s.mode ∧
    s.armCuepoint.hasVideo = s.hasVideo ∧
    s.armCuepoint.headerWritten = s.headerWritten ∧
    s.armCuepoint.cuesTrack = s.cuesTrack ∧
    s.armCuepoint.payloadPos = s.payloadPos ∧
    s.armCuepoint.outputCues = s.outputCues ∧
    s.armCuepoint.maxClusterDuration = s.maxClusterDuration ∧
    s.armCuepoint.maxClusterSize = s.maxClusterSize ∧
    s.armCuepoint.lastTimestamp = s.lastTimestamp ∧
    s.armCuepoint.writer = s.writer := by
  unfold Segment.armCuepoint
  split <;> exact ⟨rfl, rfl, rfl, rfl, rfl, rfl, rfl, rfl, rfl, rfl, rfl,
    rfl, rfl, rfl⟩

theorem openCluster_some_true {s : Segment} {ts : Nat} {s' : Segment}
    (h : s.openCluster ts = some (true, s')) :
    ∃ s1, s.WriteFramesLessThan ts = some (true, s1) ∧
      s'.clusters.getLast? = some (Cluster.new (s1.newClusterTimecode ts)) ∧
      s'.frames = s1.frames ∧ s'.segmentInfo = s1.segmentInfo ∧
      s'.tracks = s1.tracks ∧ s'.mode = s1.mode ∧ s'.hasVideo = s1.hasVideo ∧
      s'.headerWritten = s1.headerWritten ∧ s'.cuesTrack = s1.cuesTrack ∧
      s'.payloadPos = s1.payloadPos ∧ s'.outputCues = s1.outputCues ∧
      s'.maxClusterDuration = s1.maxClusterDuration ∧
      s'.maxClusterSize = s1.maxClusterSize ∧
      s'.newCluster = false ∧ s'.lastTimestamp = s1.lastTimestamp ∧
      s'.clusters.length = s1.clusters.length + 1 ∧
      (s'.clusters.dropLast = s1.clusters ∨
        ∃ oldC oldC1, s1.clusters.getLast? = some oldC ∧
          oldC1.blocks = oldC.blocks ∧ oldC1.timecode = oldC.timecode ∧
          s'.clusters.dropLast = setLast s1.clusters oldC1) := by
  obtain ⟨s1, hW, h2⟩ := bchain_some_true h
  refine ⟨s1, hW, ?_⟩
  split at h2
  · -- file mode
    obtain ⟨s3, hstep, h3⟩ := bchain_some_true h2
    injection h3 with h3
    injection h3 with h31 h32
    subst h32
    obtain ⟨acl, afr, asi, atr, amo, ahv, ahw, act, app2, aoc, amd, ams,
      alt, awr⟩ := armCuepoint_core s3
    split at hstep
    · next hml =>
      injection hstep with hstep
      injection hstep with hstep1 hstep2
      subst hstep2
      refine ⟨?_, ?_, ?_, ?_, ?_, ?_, ?_, ?_, ?_, ?_, ?_, ?_, ?_, ?_, ?_,
        Or.inl ?_⟩
      · show (Segment.armCuepoint _).clusters.getLast? = _
        rw [acl]; exact List.getLast?_concat _
      · exact afr
      · exact asi
      · exact atr
      · exact amo
      · exact ahv
      · exact ahw
      · exact act
      · exact app2
      · exact aoc
      · exact amd
      · exact ams
      · rfl
      · exact alt
      · show (Segment.armCuepoint _).clusters.length = _
        rw [acl]; simp
      · show (Segment.armCuepoint _).clusters.dropLast = _
        rw [acl]; simp [List.dropLast_concat]
    · next oldC hml =>
      split at hstep
      · next hfin => simp at hstep
      · next w oldC1 hfin =>
        injection hstep with hstep
        injection hstep with hstep1 hstep2
        subst hstep2
        obtain ⟨-, -, hfc, hfb⟩ := Cluster.Finalize_eq_some hfin
        refine ⟨?_, ?_, ?_, ?_, ?_, ?_, ?_, ?_, ?_, ?_, ?_, ?_, ?_, ?_, ?_,
          Or.inr ⟨oldC, oldC1, hml, hfb, hfc, ?_⟩⟩
        · show (Segment.armCuepoint _).clusters.getLast? = _
          rw [acl]; exact List.getLast?_concat _
        · exact afr
        · exact asi
        · exact atr
        · exact amo
        · exact ahv
        · exact ahw
        · exact act
        · exact app2
        · exact aoc
        · exact amd
        · exact ams
        · rfl
        · exact alt
        · show (Segment.armCuepoint _).clusters.length = _
          rw [acl]
          simp [setLast_length hml]
        · show (Segment.armCuepoint _).clusters.dropLast = _
          rw [acl]; simp [List.dropLast_concat]
  · -- live mode
    injection h2 with h2
    injection h2 with h21 h22
    subst h22
    refine ⟨?_, rfl, rfl, rfl, rfl, rfl, rfl, rfl, rfl, rfl, rfl, rfl, rfl,
      rfl, ?_, Or.inl ?_⟩
    · exact List.getLast?_concat _
    · simp
    · simp [List.dropLast_concat]

theorem openCluster_mono {s : Segment} {ts : Nat} {b : Bool} {s' : Segment}
    (h : s.openCluster ts = some (b, s')) :
    s.lastTimestamp ≤ s'.lastTimestamp := by
  rcases bchain_elim h with ⟨s1, hW, h2⟩ | ⟨-, hW⟩
  · have h1 := WriteFramesLessThan_mono hW
    refine le_trans h1 ?_
    split at h2
    · rcases bchain_elim h2 with ⟨s3, hstep, h3⟩ | ⟨-, hstep⟩
      · have hs3 : s1.lastTimestamp ≤ s3.lastTimestamp := by
          split at hstep
          · next hml =>
            injection hstep with hstep
            injection hstep with _ hst
            subst hst
            exact le_refl _
          · next oldC hml =>
            split at hstep
            · next hfin => simp at hstep
            · next w oldC1 hfin =>
              injection hstep with hstep
              injection hstep with _ hst
              subst hst
              exact le_refl _
        refine le_trans hs3 ?_
        injection h3 with h3
        injection h3 with _ h32
        subst h32
        exact ((armCuepoint_core s3).2.2.2.2.2.2.2.2.2.2.2.2.1).ge
      · split at hstep
        · next hml => simp at hstep
        · next oldC hml =>
          split at hstep
          · next hfin =>
            injection hstep with hstep
            injection hstep with _ hst
            subst hst
            exact le_refl _
          · next w oldC1 hfin => simp at hstep
    · injection h2 with h2
      injection h2 with _ h22
      subst h22
      exact le_refl _
  · exact WriteFramesLessThan_mono hW

/-! ## Header-step lemmas -/

theorem WriteSegmentHeader_core {s : Segment} {b : Bool} {s1 : Segment}
    (h : s.WriteSegmentHeader = some (b, s1)) :
    s1.clusters = s.clusters ∧ s1.frames = s.frames ∧ s1.tracks = s.tracks ∧
    s1.hasVideo = s.hasVideo ∧ s1.mode = s.mode ∧
    s1.lastTimestamp = s.lastTimestamp ∧ s1.newCluster = s.newCluster ∧
    s1.maxClusterDuration = s.maxClusterDuration ∧
    s1.maxClusterSize = s.maxClusterSize ∧ s1.outputCues = s.outputCues ∧
    s1.newCuepoint = s.newCuepoint ∧ s1.cues = s.cues ∧
    s1.segmentInfo.timecodeScale = s.segmentInfo.timecodeScale := by
  simp only [Segment.WriteSegmentHeader] at h
  repeat' split at h
  all_goals
    (injection h with h; injection h with h1 h2; subst h2;
     exact ⟨rfl, rfl, rfl, rfl, rfl, rfl, rfl, rfl, rfl, rfl, rfl, rfl, rfl⟩)

theorem bchain_true_left (s : Segment) (k : Segment → Option (Bool × Segment)) :
    bchain (some (true, s)) k = k s := rfl

theorem headerStep_of_written {s : Segment} (h : s.headerWritten = true) :
    s.headerStep = some (true, s) := by
  unfold Segment.headerStep
  rw [if_pos h]

theorem headerStep_core {s : Segment} {b : Bool} {s1 : Segment}
    (h : s.headerStep = some (b, s1)) :
    s1.clusters = s.clusters ∧ s1.frames = s.frames ∧ s1.tracks = s.tracks ∧
    s1.hasVideo = s.hasVideo ∧ s1.mode = s.mode ∧
    s1.lastTimestamp = s.lastTimestamp ∧ s1.newCluster = s.newCluster ∧
    s1.maxClusterDuration = s.maxClusterDuration ∧
    s1.maxClusterSize = s.maxClusterSize ∧ s1.outputCues = s.outputCues ∧
    s1.newCuepoint = s.newCuepoint ∧ s1.cues = s.cues ∧
    s1.segmentInfo.timecodeScale = s.segmentInfo.timecodeScale := by
  unfold Segment.headerStep at h
  split at h
  · injection h with h
    injection h with h1 h2
    subst h2
    exact ⟨rfl, rfl, rfl, rfl, rfl, rfl, rfl, rfl, rfl, rfl, rfl, rfl, rfl⟩
  · rcases bchain_elim h with ⟨sh, hw, h2⟩ | ⟨-, hw⟩
    · obtain ⟨c1, c2, c3, c4, c5, c6, c7, c8, c9, c10, c11, c12, c13⟩ :=
        WriteSegmentHeader_core hw
      split at h2
      · injection h2 with h2
        injection h2 with h21 h22
        subst h22
        exact ⟨c1, c2, c3, c4, c5, c6, c7, c8, c9, c10, c11, c12, c13⟩
      · next sh2 hadd =>
        split at h2
        · split at h2
          · cases h2
          · next ct hsel =>
            injection h2 with h2
            injection h2 with h21 h22
            subst h22
            exact ⟨c1, c2, c3, c4, c5, c6, c7, c8, c9, c10, c11, c12, c13⟩
        · injection h2 with h2
          injection h2 with h21 h22
          subst h22
          exact ⟨c1, c2, c3, c4, c5, c6, c7, c8, c9, c10, c11, c12, c13⟩
    · exact WriteSegmentHeader_core hw

/-! ## Monotonicity of last_timestamp through the composed operations -/

theorem mainPath_mono {s : Segment} {len tn ts : Nat} {k b : Bool}
    {s' : Segment} (h : s.mainPath len tn ts k = some (b, s')) :
    s.lastTimestamp ≤ s'.lastTimestamp := by
  unfold Segment.mainPath at h
  split at h
  · cases h
  · rcases bchain_elim h with ⟨s2, hstep, h2⟩ | ⟨-, hstep⟩
    · have h1 : s.lastTimestamp ≤ s2.lastTimestamp := by
        split at hstep
        · simpa using openCluster_mono hstep
        · injection hstep with hstep
          injection hstep with _ hst
          subst hst
          exact le_refl _
      refine le_trans h1 ?_
      rcases bchain_elim h2 with ⟨s3, hwfa, h3⟩ | ⟨-, hwfa⟩
      · exact le_trans (WriteFramesAll_mono hwfa) (wftc_mono h3)
      · exact WriteFramesAll_mono hwfa
    · split at hstep
      · simpa using openCluster_mono hstep
      · injection hstep with hstep
        injection hstep with _ hst
        subst hst
        exact le_refl _

theorem AddFrame_mono {s : Segment} {len tn ts : Nat} {k b : Bool}
    {s' : Segment} (h : s.AddFrame len tn ts k = some (b, s')) :
    s.lastTimestamp ≤ s'.lastTimestamp := by
  unfold Segment.AddFrame at h
  rcases bchain_elim h with ⟨s1, hh, h2⟩ | ⟨-, hh⟩
  · have h1 : s.lastTimestamp = s1.lastTimestamp := (headerStep_core hh).2.2.2.2.2.1.symm
    rw [h1]
    split at h2
    · split at h2
      · cases h2
      · injection h2 with h2
        injection h2 with _ h22
        subst h22
        exact le_refl _
      · exact mainPath_mono h2
    · exact mainPath_mono h2
  · exact (headerStep_core hh).2.2.2.2.2.1.ge

theorem SegmentFinalize_mono {s : Segment} {b : Bool} {s' : Segment}
    (h : s.Finalize = some (b, s')) :
    s.lastTimestamp ≤ s'.lastTimestamp := by
  unfold Segment.Finalize at h
  rcases bchain_elim h with ⟨s1, hwfa, h2⟩ | ⟨-, hwfa⟩
  · refine le_trans (WriteFramesAll_mono hwfa) ?_
    split at h2
    · rcases bchain_elim h2 with ⟨s2, hstep, h3⟩ | ⟨-, hstep⟩
      · have h12 : s1.lastTimestamp ≤ s2.lastTimestamp := by
          split at hstep
          · injection hstep with hstep
            injection hstep with _ hst
            subst hst
            exact le_refl _
          · split at hstep
            · simp at hstep
            · injection hstep with hstep
              injection hstep with _ hst
              subst hst
              exact le_refl _
        refine le_trans h12 ?_
        split at h3
        · injection h3 with h3
          injection h3 with _ h32
          subst h32
          exact le_refl _
        · next w2 hsf =>
          split at h3
          · injection h3 with h3
            injection h3 with _ h32
            subst h32
            exact le_refl _
          · next sh hadd =>
            split at h3 <;>
            · injection h3 with h3
              injection h3 with _ h32
              subst h32
              exact le_refl _
      · split at hstep
        · simp at hstep
        · split at hstep
          · injection hstep with hstep
            injection hstep with _ hst
            subst hst
            exact le_refl _
          · simp at hstep
    · injection h2 with h2
      injection h2 with _ h22
      subst h22
      exact le_refl _
  · exact WriteFramesAll_mono hwfa

/-! ## The cluster-base invariant (claim C6) -/

theorem mem_of_getLast? {α : Type} {l : List α} {a : α}
    (h : l.getLast? = some a) : a ∈ l := by
  rw [getLast?_some_decomp h]
  simp

theorem SegInv.mono {s : Segment} {t t' : Nat} (h : SegInv s t) (htt : t ≤ t') :
    SegInv s t' := by
  obtain ⟨h1, h2, h3, h4⟩ := h
  refine ⟨h1, h2, fun f hf => le_trans (h3 f hf) htt, fun c hc => ?_⟩
  obtain ⟨ha, hb⟩ := h4 c hc
  exact ⟨le_trans ha (Nat.div_le_div_right htt), hb⟩

theorem SegInv.transport {s s1 : Segment} {t : Nat}
    (hc : s1.clusters = s.clusters) (hf : s1.frames = s.frames)
    (hs : s1.segmentInfo.timecodeScale = s.segmentInfo.timecodeScale)
    (h : SegInv s t) : SegInv s1 t := by
  obtain ⟨h1, h2, h3, h4⟩ := h
  refine ⟨?_, ?_, ?_, ?_⟩
  · rw [hc, hs]; exact h1
  · rw [hf]; exact h2
  · rw [hf]; exact h3
  · rw [hc, hf, hs]; exact h4

theorem Inv_wftc {s : Segment} {len tn ts : Nat} {k : Bool} {s' : Segment}
    {t : Nat} (hinv : SegInv s t)
    (hts : ∀ c, s.clusters.getLast? = some c →
      c.timecode ≤ ts / s.segmentInfo.timecodeScale)
    (h : s.writeFrameToCluster len tn ts k = some (true, s')) : SegInv s' t := by
  obtain ⟨c, c1, hm, -, -, htc, hb, hcl, hfr, hsi, -⟩ := wftc_some_true h
  obtain ⟨h1, h2, h3, h4⟩ := hinv
  have hscale : s'.segmentInfo.timecodeScale = s.segmentInfo.timecodeScale := by
    rw [hsi]
  refine ⟨?_, ?_, ?_, ?_⟩
  · intro c2 hc2
    rw [hcl] at hc2
    rcases mem_of_mem_setLast hc2 with hd | rfl
    · rw [hscale]
      exact h1 c2 (mem_of_mem_dropLast hd)
    · intro bl hbl
      rw [hb] at hbl
      rcases List.mem_append.mp hbl with hbl | hbl
      · rw [hscale, htc]
        exact h1 c (mem_of_getLast? hm) bl hbl
      · simp only [List.mem_singleton] at hbl
        subst hbl
        rw [hscale, htc]
        exact hts c hm
  · rw [hfr]; exact h2
  · rw [hfr]; exact h3
  · intro c2 hc2
    rw [hcl, setLast_getLast?] at hc2
    injection hc2 with hc2
    subst hc2
    obtain ⟨ha, hbq⟩ := h4 c hm
    rw [hscale, htc, hfr]
    exact ⟨ha, hbq⟩

theorem Inv_writeFrameList : ∀ (q : List Frame) (s : Segment) (t : Nat)
    (s' : Segment), SegInv s t →
    (∀ c, s.clusters.getLast? = some c → ∀ f ∈ q,
      c.timecode ≤ f.timestamp / s.segmentInfo.timecodeScale) →
    Segment.writeFrameList q s = some (true, s') → SegInv s' t
  | [], s, t, s', hinv, _, h => by
    simp only [Segment.writeFrameList, Option.some.injEq, Prod.mk.injEq,
      true_and] at h
    subst h
    exact hinv
  | f :: rest, s, t, s', hinv, hq, h => by
    simp only [Segment.writeFrameList] at h
    split at h
    · exact absurd h (by simp)
    · exact absurd h (by simp)
    · next s1 heq =>
      obtain ⟨c, c1, hm, -, -, htc, -, hcl, -, hsi, -⟩ := wftc_some_true heq
      have hinv1 := Inv_wftc hinv
        (fun c0 hc0 => by
          rw [hm] at hc0
          injection hc0 with hc0
          subst hc0
          exact hq _ hm f (by simp)) heq
      refine Inv_writeFrameList rest s1 t s' hinv1 ?_ h
      intro c2 hc2 g hg
      rw [hcl, setLast_getLast?] at hc2
      injection hc2 with hc2
      subst hc2
      rw [hsi, htc]
      exact hq c hm g (by simp [hg])

theorem Inv_WriteFramesAll {s : Segment} {t : Nat} {s' : Segment}
    (hinv : SegInv s t) (h : s.WriteFramesAll = some (true, s')) :
    SegInv s' t := by
  by_cases hf : s.frames = []
  · simp only [Segment.WriteFramesAll, if_pos hf, Option.some.injEq,
      Prod.mk.injEq, true_and] at h
    subst h
    exact hinv
  · simp only [Segment.WriteFramesAll, if_neg hf] at h
    split at h
    · exact absurd h (by simp)
    · exact absurd h (by simp)
    · next s1 heq =>
      simp only [Option.some.injEq, Prod.mk.injEq, true_and] at h
      subst h
      have hinv1 := Inv_writeFrameList s.frames s t s1 hinv
        (fun c hc f hfm => ((hinv.2.2.2) c hc).2 f hfm) heq
      obtain ⟨h1, h2, h3, h4⟩ := hinv1
      refine ⟨h1, by simp, by simp, ?_⟩
      intro c hc
      simp only at hc
      obtain ⟨ha, -⟩ := h4 c hc
      exact ⟨ha, by simp⟩

theorem Inv_WriteFramesLessThan {s : Segment} {limit t : Nat} {s' : Segment}
    (hinv : SegInv s t) (h : s.WriteFramesLessThan limit = some (true, s')) :
    SegInv s' t := by
  obtain ⟨hfr, hsi, -, -, -, -, -, -, -, -, -, -, -, hnone, hsome⟩ :=
    WriteFramesLessThan_some_true h
  obtain ⟨h1, h2, h3, h4⟩ := hinv
  have happ := flushLtSplit_append limit s.frames
  have hsub2 : ∀ f ∈ (flushLtSplit limit s.frames).2, f ∈ s.frames := by
    intro f hf
    rw [← happ]
    exact List.mem_append.mpr (Or.inr hf)
  have hp2 : ((flushLtSplit limit s.frames).2).Pairwise
      (fun a b => a.timestamp ≤ b.timestamp) := by
    have := happ ▸ h2
    exact (List.pairwise_append.mp this).2.1
  cases hm : s.clusters.getLast? with
  | none =>
    have hcl := hnone hm
    refine ⟨by rw [hcl, hsi]; exact h1, by rw [hfr]; exact hp2, ?_, ?_⟩
    · rw [hfr]; exact fun f hf => h3 f (hsub2 f hf)
    · intro c hc
      rw [hcl, hm] at hc
      cases hc
  | some c =>
    obtain ⟨c1, hm1, htc, hb, hdl, -⟩ := hsome c hm
    have hrecon : s'.clusters = setLast s.clusters c1 := by
      rw [getLast?_some_decomp hm1, hdl, setLast]
    refine ⟨?_, by rw [hfr]; exact hp2, ?_, ?_⟩
    · intro c2 hc2
      rw [hrecon] at hc2
      rcases mem_of_mem_setLast hc2 with hd | rfl
      · rw [hsi]
        exact h1 c2 (mem_of_mem_dropLast hd)
      · intro bl hbl
        rw [hb] at hbl
        rcases List.mem_append.mp hbl with hbl | hbl
        · rw [hsi, htc]
          exact h1 c (mem_of_getLast? hm) bl hbl
        · obtain ⟨f, hfm, rfl⟩ := List.mem_map.mp hbl
          rw [hsi, htc]
          have hfall : f ∈ s.frames := by
            rw [← happ]
            exact List.mem_append.mpr (Or.inl hfm)
          exact (h4 c hm).2 f hfall
    · rw [hfr]; exact fun f hf => h3 f (hsub2 f hf)
    · intro c2 hc2
      rw [hm1] at hc2
      injection hc2 with hc2
      subst hc2
      obtain ⟨ha, hbq⟩ := h4 c hm
      rw [hsi, htc, hfr]
      exact ⟨ha, fun f hf => hbq f (hsub2 f hf)⟩

theorem head_le_of_pairwise {l : List Frame} {q f : Frame}
    (hh : l.head? = some q)
    (hp : l.Pairwise (fun a b => a.timestamp ≤ b.timestamp)) (hf : f ∈ l) :
    q.timestamp ≤ f.timestamp := by
  cases l with
  | nil => cases hh
  | cons a rest =>
    injection hh with hh
    subst hh
    rcases List.mem_cons.mp hf with rfl | hf2
    · exact le_refl _
    · exact (List.pairwise_cons.mp hp).1 f hf2

theorem newClusterTimecode_le (s : Segment) (ts : Nat) :
    s.newClusterTimecode ts ≤ ts / s.segmentInfo.timecodeScale := by
  unfold Segment.newClusterTimecode
  cases s.frames.head? with
  | none => exact le_refl _
  | some q =>
    simp only
    split
    · next hlt => exact le_of_lt hlt
    · exact le_refl _

theorem newClusterTimecode_le_head {s : Segment} {ts : Nat} {q : Frame}
    (hh : s.frames.head? = some q) :
    s.newClusterTimecode ts ≤ q.timestamp / s.segmentInfo.timecodeScale := by
  unfold Segment.newClusterTimecode
  rw [hh]
  simp only
  split
  · exact le_refl _
  · next hge => exact Nat.le_of_not_lt hge

theorem Inv_openCluster {s : Segment} {ts t : Nat} {s' : Segment}
    (hinv : SegInv s t) (htt : t ≤ ts)
    (h : s.openCluster ts = some (true, s')) : SegInv s' ts := by
  obtain ⟨s1, hW, hlast, hfr, hsi, -, -, -, -, -, -, -, -, -, -, -, -, hdl⟩ :=
    openCluster_some_true h
  have hinv1 : SegInv s1 ts := (Inv_WriteFramesLessThan hinv hW).mono htt
  obtain ⟨h1, h2, h3, h4⟩ := hinv1
  have hscale : s'.segmentInfo.timecodeScale = s1.segmentInfo.timecodeScale := by
    rw [hsi]
  have hdecomp : s'.clusters = s'.clusters.dropLast ++
      [Cluster.new (s1.newClusterTimecode ts)] := getLast?_some_decomp hlast
  have hnewOk : ∀ f ∈ s1.frames, s1.newClusterTimecode ts ≤
      f.timestamp / s1.segmentInfo.timecodeScale := by
    intro f hf
    cases hh : s1.frames.head? with
    | none =>
      rw [List.head?_eq_none_iff] at hh
      rw [hh] at hf
      cases hf
    | some q =>
      refine le_trans (newClusterTimecode_le_head hh) ?_
      exact Nat.div_le_div_right (head_le_of_pairwise hh h2 hf)
  refine ⟨?_, by rw [hfr]; exact h2, ?_, ?_⟩
  · intro c2 hc2
    rw [hdecomp] at hc2
    rcases List.mem_append.mp hc2 with hd | hd
    · rcases hdl with hcase | ⟨oldC, oldC1, hml, hblocks, htcold, hcase⟩
      · rw [hcase] at hd
        rw [hscale]
        exact h1 c2 hd
      · rw [hcase] at hd
        rcases mem_of_mem_setLast hd with hd2 | rfl
        · rw [hscale]
          exact h1 c2 (mem_of_mem_dropLast hd2)
        · intro bl hbl
          rw [hblocks] at hbl
          rw [hscale, htcold]
          exact h1 oldC (mem_of_getLast? hml) bl hbl
    · simp only [List.mem_singleton] at hd
      subst hd
      intro bl hbl
      cases hbl
  · rw [hfr]
    exact h3
  · intro c2 hc2
    rw [hlast] at hc2
    injection hc2 with hc2
    subst hc2
    rw [hscale, hfr]
    exact ⟨newClusterTimecode_le s1 ts, hnewOk⟩

theorem Inv_queue {s : Segment} {fr : Frame} {t : Nat} (hinv : SegInv s t)
    (hts : t ≤ fr.timestamp) :
    SegInv { s with frames := s.frames ++ [fr] } fr.timestamp := by
  obtain ⟨h1, h2, h3, h4⟩ := hinv
  refine ⟨h1, ?_, ?_, ?_⟩
  · refine List.pairwise_append.mpr ⟨h2, List.pairwise_singleton _ _, ?_⟩
    intro a ha b hb
    simp only [List.mem_singleton] at hb
    subst hb
    exact le_trans (h3 a ha) hts
  · intro f hf
    rcases List.mem_append.mp hf with hf | hf
    · exact le_trans (h3 f hf) hts
    · simp only [List.mem_singleton] at hf
      subst hf
      exact le_refl _
  · intro c hc
    obtain ⟨ha, hb⟩ := h4 c hc
    refine ⟨le_trans ha (Nat.div_le_div_right hts), ?_⟩
    intro f hf
    rcases List.mem_append.mp hf with hf | hf
    · exact hb f hf
    · simp only [List.mem_singleton] at hf
      subst hf
      exact le_trans ha (Nat.div_le_div_right hts)

theorem Inv_mainPath {s : Segment} {len tn ts : Nat} {k : Bool} {s' : Segment}
    (hinv : SegInv s ts) (h : s.mainPath len tn ts k = some (true, s')) :
    SegInv s' ts := by
  unfold Segment.mainPath at h
  split at h
  · cases h
  · next ivk hivk =>
    obtain ⟨s2, hstep, h2⟩ := bchain_some_true h
    have hinv2 : SegInv s2 ts := by
      split at hstep
      · have hinvR : SegInv { s with newCluster := s.clusterDecision ts ivk } ts :=
          SegInv.transport rfl rfl rfl hinv
        exact Inv_openCluster hinvR (le_refl ts) hstep
      · injection hstep with hstep
        injection hstep with _ hst
        subst hst
        exact SegInv.transport rfl rfl rfl hinv
    obtain ⟨s3, hwfa, h3⟩ := bchain_some_true h2
    have hinv3 := Inv_WriteFramesAll hinv2 hwfa
    exact Inv_wftc hinv3 (fun c hc => (hinv3.2.2.2 c hc).1) h3

theorem Inv_addFrame {s : Segment} {len tn ts : Nat} {k : Bool} {s' : Segment}
    {t : Nat} (hinv : SegInv s t) (htt : t ≤ ts)
    (h : s.AddFrame len tn ts k = some (true, s')) : SegInv s' ts := by
  unfold Segment.AddFrame at h
  obtain ⟨s1, hh, h2⟩ := bchain_some_true h
  obtain ⟨c1, c2, -, -, -, -, -, -, -, -, -, -, c13⟩ := headerStep_core hh
  have hinv1 : SegInv s1 ts := (SegInv.transport c1 c2 c13 hinv).mono htt
  split at h2
  · split at h2
    · cases h2
    · injection h2 with h2
      injection h2 with _ h22
      subst h22
      exact Inv_queue hinv1 (le_refl _)
    · exact Inv_mainPath hinv1 h2
  · exact Inv_mainPath hinv1 h2

theorem Inv_runFrames : ∀ (fs : List Frame) (s : Segment) (t : Nat)
    (s' : Segment), SegInv s t → (∀ f ∈ fs, t ≤ f.timestamp) →
    fs.Pairwise (fun a b => a.timestamp ≤ b.timestamp) →
    runFrames s fs = some s' → ∃ t2, SegInv s' t2
  | [], s, t, s', hinv, _, _, h => by
    simp only [runFrames, Option.some.injEq] at h
    subst h
    exact ⟨t, hinv⟩
  | f :: fs, s, t, s', hinv, hall, hp, h => by
    simp only [runFrames] at h
    split at h
    · next s1 heq =>
      have hinv1 := Inv_addFrame hinv (hall f (by simp)) heq
      refine Inv_runFrames fs s1 f.timestamp s' hinv1 ?_
        (List.Pairwise.of_cons hp) h
      exact fun g hg => (List.pairwise_cons.mp hp).1 g hg
    · cases h

theorem Inv_SegFinalize {s : Segment} {t : Nat} {s' : Segment}
    (hinv : SegInv s t) (h : s.Finalize = some (true, s')) :
    ∀ c ∈ s'.clusters, clusterOk s'.segmentInfo.timecodeScale c := by
  unfold Segment.Finalize at h
  obtain ⟨s1, hwfa, h2⟩ := bchain_some_true h
  have hinv1 := Inv_WriteFramesAll hinv hwfa
  split at h2
  · obtain ⟨s2, hstep, h3⟩ := bchain_some_true h2
    have hcl2 : ∀ c ∈ s2.clusters, clusterOk s2.segmentInfo.timecodeScale c := by
      split at hstep
      · injection hstep with hstep
        injection hstep with _ hst
        subst hst
        exact hinv1.1
      · next c0 hml =>
        split at hstep
        · simp at hstep
        · next w c1 hfin =>
          injection hstep with hstep
          injection hstep with _ hst
          subst hst
          intro c hc
          rcases mem_of_mem_setLast hc with hd | rfl
          · exact hinv1.1 c (mem_of_mem_dropLast hd)
          · obtain ⟨-, -, htc, hb⟩ := Cluster.Finalize_eq_some hfin
            intro bl hbl
            rw [hb] at hbl
            rw [htc]
            exact hinv1.1 c0 (mem_of_getLast? hml) bl hbl
    split at h3
    · simp at h3
    · next w2 hsf =>
      split at h3
      · simp at h3
      · next sh hadd =>
        split at h3 <;>
        · injection h3 with h3
          injection h3 with _ h32
          subst h32
          exact hcl2
  · injection h2 with h2
    injection h2 with _ h22
    subst h22
    exact hinv1.1

/-! ## Block-signature helpers -/

theorem mkBlock_sig (tc scale len tn ts : Nat) (k : Bool) :
    (mkBlock tc scale len tn ts k).sig = (tn, ts, k) := rfl

theorem blockSig_map (tc scale : Nat) : ∀ (q : List Frame),
    (q.map (fun f =>
      mkBlock tc scale f.length f.trackNumber f.timestamp f.isKey)).map
        Block.sig = q.map Frame.sig
  | [] => rfl
  | f :: rest => by
    simp only [List.map_cons, mkBlock_sig]
    rw [blockSig_map tc scale rest]
    rfl

/-! ## Length preservation and the finalized-cluster failure mode -/

theorem wftc_length {s : Segment} {len tn ts : Nat} {k : Bool} {s' : Segment}
    (h : s.writeFrameToCluster len tn ts k = some (true, s')) :
    s'.clusters.length = s.clusters.length := by
  obtain ⟨c, c1, hm, -, -, -, -, hcl, -⟩ := wftc_some_true h
  rw [hcl]
  exact setLast_length hm _

theorem WriteFramesLessThan_length {s : Segment} {limit : Nat} {s' : Segment}
    (h : s.WriteFramesLessThan limit = some (true, s')) :
    s'.clusters.length = s.clusters.length := by
  obtain ⟨-, -, -, -, -, -, -, -, -, -, -, -, -, hnone, hsome⟩ :=
    WriteFramesLessThan_some_true h
  cases hm : s.clusters.getLast? with
  | none => rw [hnone hm]
  | some c =>
    obtain ⟨c1, -, -, -, -, hlen⟩ := hsome c hm
    exact hlen

theorem WriteFramesAll_length {s : Segment} {s' : Segment}
    (h : s.WriteFramesAll = some (true, s')) :
    s'.clusters.length = s.clusters.length := by
  by_cases hf : s.frames = []
  · rw [(WriteFramesAll_some_true h).2.1 hf]
  · cases hm : s.clusters.getLast? with
    | none =>
      exfalso
      simp only [Segment.WriteFramesAll, if_neg hf] at h
      split at h
      · exact absurd h (by simp)
      · exact absurd h (by simp)
      · next s1 heq =>
        cases hq : s.frames with
        | nil => exact hf hq
        | cons f rest =>
          rw [hq] at heq
          have := writeFrameList_cons_clusters_isSome heq
          rw [hm] at this
          simp at this
    | some c =>
      obtain ⟨c1, -, -, -, -, -, hlen, -⟩ := (WriteFramesAll_some_true h).2.2 c hm
      exact hlen

theorem wftc_finalized {s : Segment} {len tn ts : Nat} {k : Bool} {c : Cluster}
    (hm : s.clusters.getLast? = some c) (hcf : c.finalized = true) :
    ∃ s1, s.writeFrameToCluster len tn ts k = some (false, s1) ∧
      s1.writer = s.writer ∧ s1.clusters = s.clusters ∧
      s1.frames = s.frames ∧ s1.mode = s.mode := by
  by_cases hq : s.newCuepoint ∧ s.cuesTrack = tn
  · refine ⟨{ s with
        cues := s.cues ++
          [{ time := ts / s.segmentInfo.timecodeScale, track := s.cuesTrack,
             clusterPos := s.writer.pos - s.payloadPos,
             blockNumber := c.blocksAdded + 1,
             clusterIndex := s.clusters.length - 1, createPos := s.writer.pos }],
        newCuepoint := false }, ?_, rfl, rfl, rfl, rfl⟩
    simp only [Segment.writeFrameToCluster, hm, if_pos hq,
      Cluster.AddFrame_eq_none hcf]
  · refine ⟨s, ?_, rfl, rfl, rfl, rfl⟩
    simp only [Segment.writeFrameToCluster, hm, if_neg hq,
      Cluster.AddFrame_eq_none hcf]

theorem writeFrameList_finalized {f : Frame} {rest : List Frame} {s : Segment}
    {c : Cluster} (hm : s.clusters.getLast? = some c)
    (hcf : c.finalized = true) :
    ∃ s1, Segment.writeFrameList (f :: rest) s = some (false, s1) ∧
      s1.writer = s.writer ∧ s1.clusters = s.clusters ∧
      s1.frames = s.frames ∧ s1.mode = s.mode := by
  obtain ⟨s1, hw, h1, h2, h3, h4⟩ :=
    @wftc_finalized _ f.length f.trackNumber f.timestamp f.isKey _ hm hcf
  refine ⟨s1, ?_, h1, h2, h3, h4⟩
  simp only [Segment.writeFrameList, hw]

theorem WriteFramesAll_finalized {s : Segment} {c : Cluster}
    (hm : s.clusters.getLast? = some c) (hcf : c.finalized = true)
    (hne : s.frames ≠ []) :
    ∃ s1, s.WriteFramesAll = some (false, s1) ∧ s1.writer = s.writer ∧
      s1.clusters = s.clusters ∧ s1.mode = s.mode := by
  cases hq : s.frames with
  | nil => exact absurd hq hne
  | cons f rest =>
    obtain ⟨s1, hw, h1, h2, -, h4⟩ :=
      @writeFrameList_finalized f rest _ _ hm hcf
    refine ⟨s1, ?_, h1, h2, h4⟩
    simp only [Segment.WriteFramesAll, if_neg hne]
    rw [← hq] at hw
    rw [hw]

/-- The value the cluster-base computation takes, spelled with `min`. -/
theorem newClusterTimecode_eq (s : Segment) (ts : Nat) :
    s.newClusterTimecode ts =
      match s.frames.head? with
      | some q => min (ts / s.segmentInfo.timecodeScale)
          (q.timestamp / s.segmentInfo.timecodeScale)
      | none => ts / s.segmentInfo.timecodeScale := by
  unfold Segment.newClusterTimecode
  cases s.frames.head? with
  | none => rfl
  | some q =>
    simp only
    split <;> omega

/-- Characterization of the boundary-decision value. -/
theorem clusterDecision_iff (s : Segment) (ts : Nat) (ivk : Bool) :
    s.clusterDecision ts ivk = true ↔
      (ivk = true ∨ s.newCluster = true ∨
        ∃ c, s.clusters.getLast? = some c ∧
          ((s.maxClusterDuration > 0 ∧
            sub64 ts (c.timecode * s.segmentInfo.timecodeScale % 2 ^ 64) ≥
              s.maxClusterDuration) ∨
           (s.maxClusterSize > 0 ∧ c.payloadSize ≥ s.maxClusterSize))) := by
  cases hm : s.clusters.getLast? with
  | none => cases ivk <;> simp [Segment.clusterDecision, hm]
  | some c =>
    cases ivk with
    | true => simp [Segment.clusterDecision]
    | false =>
      simp only [Segment.clusterDecision, hm, Bool.false_eq_true, if_false,
        false_or]
      constructor
      · intro h
        split at h
        · next h1 => exact Or.inr ⟨c, rfl, Or.inl h1⟩
        · split at h
          · next h2 => exact Or.inr ⟨c, rfl, Or.inr h2⟩
          · exact Or.inl h
      · intro h
        rcases h with h | ⟨c1, hc1, hcond⟩
        · by_cases h1 : s.maxClusterDuration > 0 ∧
              sub64 ts (c.timecode * s.segmentInfo.timecodeScale % 2 ^ 64) ≥
                s.maxClusterDuration
          · rw [if_pos h1]
          · rw [if_neg h1]
            by_cases h2 : s.maxClusterSize > 0 ∧
                c.payloadSize ≥ s.maxClusterSize
            · rw [if_pos h2]
            · rw [if_neg h2]
              exact h
        · injection hc1 with hc1
          subst hc1
          rcases hcond with h1 | h2
          · rw [if_pos h1]
          · by_cases h1 : s.maxClusterDuration > 0 ∧
                sub64 ts (c.timecode * s.segmentInfo.timecodeScale % 2 ^ 64) ≥
                  s.maxClusterDuration
            · rw [if_pos h1]
            · rw [if_neg h1, if_pos h2]

/-- The slot scan fails exactly when every slot is occupied (on parallel
arrays of one length). -/
theorem addSeekEntryAux_none_iff : ∀ (ids poss : List Nat) (id pos : Nat),
    ids.length = poss.length →
    (addSeekEntryAux id pos ids poss = none ↔ ∀ i ∈ ids, i ≠ 0)
  | [], [], id, pos, _ => by simp [addSeekEntryAux]
  | [], p :: ps, id, pos, h => by simp at h
  | i :: is, [], id, pos, h => by simp at h
  | i :: is, p :: ps, id, pos, h => by
    simp only [addSeekEntryAux]
    by_cases hi : i = 0
    · rw [if_pos hi]
      constructor
      · intro hc
        exact absurd hc (by simp)
      · intro hall
        exact absurd hi (hall i (by simp))
    · rw [if_neg hi]
      have ih := addSeekEntryAux_none_iff is ps id pos (by simpa using h)
      constructor
      · intro hc
        have hrec : addSeekEntryAux id pos is ps = none := by
          cases hx : addSeekEntryAux id pos is ps with
          | none => rfl
          | some r =>
            rw [hx] at hc
            simp at hc
        intro j hj
        rcases List.mem_cons.mp hj with rfl | hj2
        · exact hi
        · exact (ih.mp hrec) j hj2
      · intro hall
        have hrec : addSeekEntryAux id pos is ps = none :=
          ih.mpr (fun j hj => hall j (List.mem_cons_of_mem _ hj))
        rw [hrec]
        rfl

/-- A successful slot scan fills the first zero slot and only that slot. -/
theorem addSeekEntryAux_some_spec : ∀ (ids poss : List Nat) (id pos : Nat)
    (ids2 poss2 : List Nat),
    addSeekEntryAux id pos ids poss = some (ids2, poss2) →
    ∃ j, j < ids.length ∧ ids.getD j 1 = 0 ∧
      (∀ j2, j2 < j → ids.getD j2 0 ≠ 0) ∧
      ids2 = ids.set j id ∧ poss2 = poss.set j pos
  | [], _, _, _, _, _, h => by simp [addSeekEntryAux] at h
  | _ :: _, [], _, _, _, _, h => by simp [addSeekEntryAux] at h
  | i :: is, p :: ps, id, pos, ids2, poss2, h => by
    simp only [addSeekEntryAux] at h
    by_cases hi : i = 0
    · rw [if_pos hi] at h
      injection h with h
      injection h with h1 h2
      subst h1
      subst h2
      exact ⟨0, by simp, by simpa using hi, fun j2 hj2 => absurd hj2 (by omega),
        by simp, by simp⟩
    · rw [if_neg hi] at h
      cases hx : addSeekEntryAux id pos is ps with
      | none =>
        rw [hx] at h
        simp at h
      | some r =>
        rw [hx] at h
        obtain ⟨a, b⟩ := r
        simp only [Option.map_some'] at h
        injection h with h
        injection h with h1 h2
        subst h1
        subst h2
        obtain ⟨j, hk, hz, hbef, ha, hb⟩ :=
          addSeekEntryAux_some_spec is ps id pos a b hx
        refine ⟨j + 1, by simpa using hk, by simpa using hz, ?_, ?_, ?_⟩
        · intro j2 hj2
          cases j2 with
          | zero => simpa using hi
          | succ j3 => simpa using hbef j3 (by omega)
        · simp [ha]
        · simp [hb]

/-- `WriteFramesLessThan` on a state whose last cluster is finalized:
either nothing was due and it succeeds without touching the clusters, or a
frame was due and the write into the finalized cluster fails with no
bytes. -/
theorem WFLT_cases_finalized {s : Segment} {limit : Nat} {c : Cluster}
    (hm : s.clusters.getLast? = some c) (hcf : c.finalized = true) :
    (∃ s1, s.WriteFramesLessThan limit = some (false, s1) ∧
      s1.writer = s.writer) ∨
    (∃ s1, s.WriteFramesLessThan limit = some (true, s1) ∧
      s1.writer = s.writer ∧ s1.clusters = s.clusters ∧ s1.mode = s.mode) := by
  by_cases hf : s.frames = []
  · right
    exact ⟨s, by simp only [Segment.WriteFramesLessThan, if_pos hf], rfl, rfl,
      rfl⟩
  · cases hsp : (flushLtSplit limit s.frames).1 with
    | nil =>
      right
      refine ⟨{ s with frames := (flushLtSplit limit s.frames).2 }, ?_, rfl,
        rfl, rfl⟩
      simp only [Segment.WriteFramesLessThan, if_neg hf, hsp,
        Segment.writeFrameList]
    | cons f rest =>
      left
      obtain ⟨s1, hw, hwr, hcl, hfr, hmo2⟩ :=
        @wftc_finalized _ f.length f.trackNumber f.timestamp f.isKey _ hm hcf
      refine ⟨s1, ?_, hwr⟩
      simp only [Segment.WriteFramesLessThan, if_neg hf, hsp,
        Segment.writeFrameList, hw]

/-- Opening a cluster over a finalized last cluster in file mode fails
(either the flush write or the old cluster's re-finalize), with no bytes
emitted. -/
theorem openCluster_finalized {s : Segment} {ts : Nat} {c : Cluster}
    (hmo : s.mode = Mode.kFile) (hm : s.clusters.getLast? = some c)
    (hcf : c.finalized = true) :
    ∃ s1, s.openCluster ts = some (false, s1) ∧ s1.writer = s.writer := by
  unfold Segment.openCluster
  rcases @WFLT_cases_finalized _ ts _ hm hcf with
    ⟨s1, hW, hwr⟩ | ⟨s1, hW, hwr, hcl, hmo2⟩
  · exact ⟨s1, by simp only [hW, bchain], hwr⟩
  · refine ⟨{ s1 with
        clusters := s1.clusters ++ [Cluster.new (s1.newClusterTimecode ts)] },
      ?_, hwr⟩
    have hm1 : s1.clusters.getLast? = some c := by rw [hcl]; exact hm
    have hmo1 : s1.mode = Mode.kFile := by rw [hmo2]; exact hmo
    simp only [hW, bchain, if_pos hmo1, hm1, Cluster.Finalize_eq_none hcf]

/-! ## The claims -/

/-- C7: `last_timestamp_` is monotone non-decreasing: none of
`Segment::AddFrame`, `Segment::WriteFramesAll`,
`Segment::WriteFramesLessThan` or `Segment::Finalize` ever decreases it,
whatever success flag they return. -/
theorem last_timestamp_monotone :
    (∀ (s : Segment) (len tn ts : Nat) (k b : Bool) (s2 : Segment),
      s.AddFrame len tn ts k = some (b, s2) →
      s.lastTimestamp ≤ s2.lastTimestamp) ∧
    (∀ (s : Segment) (b : Bool) (s2 : Segment),
      s.Finalize = some (b, s2) → s.lastTimestamp ≤ s2.lastTimestamp) ∧
    (∀ (s : Segment) (b : Bool) (s2 : Segment),
      s.WriteFramesAll = some (b, s2) → s.lastTimestamp ≤ s2.lastTimestamp) ∧
    (∀ (s : Segment) (limit : Nat) (b : Bool) (s2 : Segment),
      s.WriteFramesLessThan limit = some (b, s2) →
      s.lastTimestamp ≤ s2.lastTimestamp) :=
  ⟨fun _ _ _ _ _ _ _ h => AddFrame_mono h,
   fun _ _ _ h => SegmentFinalize_mono h,
   fun _ _ _ h => WriteFramesAll_mono h,
   fun _ _ _ _ h => WriteFramesLessThan_mono h⟩

theorem last_timestamp_monotone_witness :
    segAV.lastTimestamp ≤ c7S1.lastTimestamp := by
  have hadd : segAV.AddFrame 1 1 0 true = some (true, c7S1) := by decide
  exact last_timestamp_monotone.1 segAV 1 1 0 true true c7S1 hadd

/-- C8: the SeekHead is constructed with exactly five slots, all zeroed;
`SeekHead::AddSeekEntry(id, pos)` stores the pair in the first slot whose
id is the sentinel 0 (leaving every other slot unchanged) and fails
exactly when every slot holds a non-zero id. -/
theorem seekhead_add_entry_spec :
    SeekHead.init.ids.length = kSeekEntryCount ∧
    SeekHead.init.poss.length = kSeekEntryCount ∧
    kSeekEntryCount = 5 ∧
    (∀ i ∈ SeekHead.init.ids, i = 0) ∧
    ∀ (sh : SeekHead) (id pos : Nat),
      sh.ids.length = sh.poss.length →
      ((sh.AddSeekEntry id pos = none ↔ ∀ i ∈ sh.ids, i ≠ 0) ∧
       ∀ sh2, sh.AddSeekEntry id pos = some sh2 →
         ∃ j, j < sh.ids.length ∧ sh.ids.getD j 1 = 0 ∧
           (∀ j2, j2 < j → sh.ids.getD j2 0 ≠ 0) ∧
           sh2.ids = sh.ids.set j id ∧ sh2.poss = sh.poss.set j pos ∧
           sh2.startPos = sh.startPos) := by
  refine ⟨by decide, by decide, rfl, by decide, ?_⟩
  intro sh id pos hlen
  constructor
  · unfold SeekHead.AddSeekEntry
    rw [Option.map_eq_none']
    exact addSeekEntryAux_none_iff sh.ids sh.poss id pos hlen
  · intro sh2 h
    unfold SeekHead.AddSeekEntry at h
    cases hx : addSeekEntryAux id pos sh.ids sh.poss with
    | none =>
      rw [hx] at h
      simp at h
    | some r =>
      rw [hx] at h
      obtain ⟨a, b⟩ := r
      simp only [Option.map_some'] at h
      injection h with h
      subst h
      obtain ⟨j, hk, hz, hbef, ha, hb⟩ :=
        addSeekEntryAux_some_spec sh.ids sh.poss id pos a b hx
      exact ⟨j, hk, hz, hbef, ha, hb, rfl⟩

theorem seekhead_add_entry_spec_witness :
    SeekHead.init.ids.length = SeekHead.init.poss.length ∧
    (SeekHead.init.AddSeekEntry kMkvInfo 12 = none ↔
      ∀ i ∈ SeekHead.init.ids, i ≠ 0) :=
  ⟨by decide,
   (seekhead_add_entry_spec.2.2.2.2 SeekHead.init kMkvInfo 12 (by decide)).1⟩

/-- C9 (amended): `Tracks::GetTrackByNumber` returns NULL exactly when no
added track carries the requested number, and `TrackIsAudio` /
`TrackIsVideo` dereference that result unconditionally; inside
`Segment::AddFrame` the dereference is reached for an unregistered track
number exactly on the paths that consult the track type: always when a
video track exists (the audio-hold check), and on the key-frame check
when none does. -/
theorem track_lookup_null_spec :
    (∀ (trs : List Track) (tn : Nat),
      (GetTrackByNumber trs tn = none ↔ ∀ t ∈ trs, t.number ≠ tn) ∧
      (TrackIsAudio trs tn = none ↔ GetTrackByNumber trs tn = none) ∧
      (TrackIsVideo trs tn = none ↔ GetTrackByNumber trs tn = none)) ∧
    (∀ (s : Segment) (len tn ts : Nat) (k : Bool),
      s.headerWritten = true → s.hasVideo = true →
      GetTrackByNumber s.tracks tn = none →
      s.AddFrame len tn ts k = none) ∧
    (∀ (s : Segment) (len tn ts : Nat),
      s.headerWritten = true → s.hasVideo = false →
      GetTrackByNumber s.tracks tn = none →
      s.AddFrame len tn ts true = none) := by
  refine ⟨?_, ?_, ?_⟩
  · intro trs tn
    refine ⟨?_, ?_, ?_⟩
    · simp [GetTrackByNumber, List.find?_eq_none]
    · unfold TrackIsAudio
      exact Option.map_eq_none'
    · unfold TrackIsVideo
      exact Option.map_eq_none'
  · intro s len tn ts k hhw hv hn
    unfold Segment.AddFrame
    rw [headerStep_of_written hhw, bchain_true_left, if_pos hv]
    have ha : TrackIsAudio s.tracks tn = none := by
      unfold TrackIsAudio
      rw [hn]
      rfl
    rw [ha]
  · intro s len tn ts hhw hv hn
    unfold Segment.AddFrame
    rw [headerStep_of_written hhw, bchain_true_left,
      if_neg (by simp [hv] : ¬s.hasVideo = true)]
    unfold Segment.mainPath
    have htv : TrackIsVideo s.tracks tn = none := by
      unfold TrackIsVideo
      rw [hn]
      rfl
    rw [if_pos rfl, htv]

/-- C9 counterexample: with no video track and a non-key frame,
`Segment::AddFrame` on an unregistered track number never consults the
track type, performs no dereference, and succeeds. -/
theorem track_lookup_null_cex :
    GetTrackByNumber segAudioOnly.tracks 7 = none ∧
    (segAudioOnly.AddFrame 1 7 0 false).map Prod.fst = some true :=
  ⟨by decide, by decide⟩

theorem track_lookup_null_spec_witness :
    c7S1.headerWritten = true ∧ c7S1.AddFrame 1 7 0 false = none :=
  ⟨by decide,
   track_lookup_null_spec.2.1 c7S1 1 7 0 false (by decide) (by decide)
     (by decide)⟩

/-- C10 (amended): the duration boundary check subtracts the cluster's
absolute scaled time from the timestamp in unsigned 64-bit arithmetic, so
for a frame older than the cluster base the difference wraps to
`2^64 - (cluster_ts - timestamp)`; the wrap forces a new cluster only
when that wrapped value still reaches `max_cluster_duration` (true for
every cap below `2^64 - (cluster_ts - timestamp)`, not for every positive
cap). -/
theorem duration_check_wrap_spec :
    ∀ (s : Segment) (ts cts : Nat) (c : Cluster),
      s.clusters.getLast? = some c →
      cts = c.timecode * s.segmentInfo.timecodeScale % 2 ^ 64 →
      ts < 2 ^ 64 → ts < cts →
      sub64 ts cts = 2 ^ 64 - (cts - ts) ∧
      (s.maxClusterDuration > 0 →
        2 ^ 64 - (cts - ts) ≥ s.maxClusterDuration →
        s.clusterDecision ts false = true) := by
  intro s ts cts c hm hc hts64 hlt
  have hcts : cts < 2 ^ 64 := by
    rw [hc]
    exact Nat.mod_lt _ (by norm_num)
  have hsub : sub64 ts cts = 2 ^ 64 - (cts - ts) := by
    unfold sub64
    rw [Nat.mod_eq_of_lt hts64, Nat.mod_eq_of_lt hcts,
      Nat.mod_eq_of_lt (by omega)]
    omega
  refine ⟨hsub, fun hmd hge => ?_⟩
  have hcond : s.maxClusterDuration > 0 ∧
      sub64 ts (c.timecode * s.segmentInfo.timecodeScale % 2 ^ 64) ≥
        s.maxClusterDuration := by
    refine ⟨hmd, ?_⟩
    rw [← hc, hsub]
    exact hge
  exact (clusterDecision_iff s ts false).mpr
    (Or.inr (Or.inr ⟨c, hm, Or.inl hcond⟩))

/-- C10 counterexample: with `max_cluster_duration = 2^64 - 1` the frame
at 999998 ns is older than the cluster base (1 ms) yet opens no new
cluster: the wrapped difference `2^64 - 2` misses the cap. -/
theorem duration_check_wrap_cex :
    c10S.maxClusterDuration = 2 ^ 64 - 1 ∧
    c10S.clusters.getLast? = some c10C ∧
    (999998 : Nat) < c10C.timecode * c10S.segmentInfo.timecodeScale % 2 ^ 64 ∧
    (c10S.AddFrame 1 1 999998 false).map
      (fun r => (r.1, r.2.clusters.length)) = some (true, 1) ∧
    c10S.clusters.length = 1 :=
  ⟨by decide, by decide, by decide, by decide, by decide⟩

theorem duration_check_wrap_spec_witness :
    c10S.clusters.getLast? = some c10C ∧
    sub64 999998 (c10C.timecode * c10S.segmentInfo.timecodeScale % 2 ^ 64) =
      2 ^ 64 -
        (c10C.timecode * c10S.segmentInfo.timecodeScale % 2 ^ 64 - 999998) := by
  refine ⟨by decide, ?_⟩
  exact (duration_check_wrap_spec c10S 999998
    (c10C.timecode * c10S.segmentInfo.timecodeScale % 2 ^ 64) c10C (by decide)
    rfl (by decide) (by decide)).1

/-- C4 (amended): the boundary decision of `Segment::AddFrame` opens a
new cluster iff the frame is a video key-frame, or the persistent
`new_cluster_` flag is still set (it starts `true`, so the first frame
always opens a cluster), or a cluster exists and one of the
duration/size caps fires (the duration difference taken with unsigned
64-bit wrap); on the non-held path a successful `AddFrame` grows the
cluster list by one exactly when the decision fires. -/
theorem new_cluster_decision_spec :
    (∀ (s : Segment) (ts : Nat) (ivk : Bool),
      s.clusterDecision ts ivk = true ↔
        (ivk = true ∨ s.newCluster = true ∨
          ∃ c, s.clusters.getLast? = some c ∧
            ((s.maxClusterDuration > 0 ∧
              sub64 ts (c.timecode * s.segmentInfo.timecodeScale % 2 ^ 64) ≥
                s.maxClusterDuration) ∨
             (s.maxClusterSize > 0 ∧ c.payloadSize ≥ s.maxClusterSize)))) ∧
    (∀ (s : Segment) (len tn ts : Nat) (k ivk : Bool) (s2 : Segment),
      s.headerWritten = true →
      (s.hasVideo = true → TrackIsAudio s.tracks tn = some false) →
      (if k then TrackIsVideo s.tracks tn else some false) = some ivk →
      s.AddFrame len tn ts k = some (true, s2) →
      s2.clusters.length = s.clusters.length +
        (if s.clusterDecision ts ivk = true then 1 else 0)) := by
  refine ⟨fun s ts ivk => clusterDecision_iff s ts ivk, ?_⟩
  intro s len tn ts k ivk s2 hhw hna hivk hadd
  unfold Segment.AddFrame at hadd
  rw [headerStep_of_written hhw, bchain_true_left] at hadd
  have hmain : s.mainPath len tn ts k = some (true, s2) := by
    by_cases hv : s.hasVideo = true
    · rw [if_pos hv, hna hv] at hadd
      exact hadd
    · rw [if_neg hv] at hadd
      exact hadd
  unfold Segment.mainPath at hmain
  rw [hivk] at hmain
  have hm3 : bchain
      (if s.clusterDecision ts ivk = true then
        ({ s with newCluster := s.clusterDecision ts ivk }).openCluster ts
       else some (true, { s with newCluster := s.clusterDecision ts ivk }))
      (fun sx => bchain sx.WriteFramesAll (fun sy =>
        sy.writeFrameToCluster len tn ts k)) = some (true, s2) := hmain
  by_cases hd : s.clusterDecision ts ivk = true
  · rw [if_pos hd] at hm3
    obtain ⟨sA, hopen, h2⟩ := bchain_some_true hm3
    obtain ⟨sB, hwfa, h3⟩ := bchain_some_true h2
    obtain ⟨sW, hW, -, -, -, -, -, -, -, -, -, -, -, -, -, -, hlen16, -⟩ :=
      openCluster_some_true hopen
    have lW : sW.clusters.length = s.clusters.length :=
      WriteFramesLessThan_length
        (s := { s with newCluster := s.clusterDecision ts ivk }) hW
    have l2 : sB.clusters.length = sA.clusters.length :=
      WriteFramesAll_length hwfa
    have l3 : s2.clusters.length = sB.clusters.length := wftc_length h3
    rw [if_pos hd]
    omega
  · rw [if_neg hd, bchain_true_left] at hm3
    obtain ⟨sB, hwfa, h3⟩ := bchain_some_true hm3
    have l2 : sB.clusters.length = s.clusters.length :=
      WriteFramesAll_length
        (s := { s with newCluster := s.clusterDecision ts ivk }) hwfa
    have l3 : s2.clusters.length = sB.clusters.length := wftc_length h3
    rw [if_neg hd]
    omega

/-- C4 counterexample: the first frame of an audio-only session is not a
video key-frame and no cluster exists (so none of the claim's three
conditions holds), yet `AddFrame` opens a cluster: the constructor starts
the persistent `new_cluster_` flag at `true`. -/
theorem new_cluster_decision_cex :
    segAudioOnly.clusters.length = 0 ∧
    specNewCluster segAudioOnly 1 0 false = false ∧
    (segAudioOnly.AddFrame 1 1 0 false).map
      (fun r => (r.1, r.2.clusters.length)) = some (true, 1) :=
  ⟨by decide, by decide, by decide⟩

theorem new_cluster_decision_spec_witness :
    c4wS.headerWritten = true ∧
    c4wS2.clusters.length = c4wS.clusters.length +
      (if c4wS.clusterDecision 5000000 false = true then 1 else 0) := by
  refine ⟨by decide, ?_⟩
  have hadd : c4wS.AddFrame 1 1 5000000 false = some (true, c4wS2) := by decide
  exact new_cluster_decision_spec.2 c4wS 1 1 5000000 false false c4wS2
    (by decide) (fun hv => absurd hv (by decide)) rfl hadd

/-- C5 (amended): a successful `Segment::WriteFramesLessThan(limit)` on a
non-empty hold queue writes, in queue order, exactly the maximal prefix of
the queue in which each written frame is followed by a frame of timestamp
≤ limit (the look-ahead loop), leaves the rest — always non-empty, so the
last held frame is never written — in the queue, and only when the queue
is sorted by timestamp does that prefix coincide with the set of frames
whose immediate successor has timestamp ≤ limit. -/
theorem flush_less_than_spec :
    ∀ (s : Segment) (limit : Nat) (s2 : Segment) (c : Cluster),
      s.frames ≠ [] →
      s.clusters.getLast? = some c →
      s.WriteFramesLessThan limit = some (true, s2) →
      (flushLtSplit limit s.frames).1 ++ (flushLtSplit limit s.frames).2 =
        s.frames ∧
      s2.frames = (flushLtSplit limit s.frames).2 ∧
      s2.frames ≠ [] ∧
      (∃ c1, s2.clusters.getLast? = some c1 ∧ c1.timecode = c.timecode ∧
        c1.blocks = c.blocks ++ (flushLtSplit limit s.frames).1.map (fun f =>
          mkBlock c.timecode s.segmentInfo.timecodeScale
            f.length f.trackNumber f.timestamp f.isKey)) ∧
      (s.frames.Pairwise (fun a b => a.timestamp ≤ b.timestamp) →
        (flushLtSplit limit s.frames).1 = specFlushLt limit s.frames) := by
  intro s limit s2 c hne hm h
  obtain ⟨hfr, -, -, -, -, -, -, -, -, -, -, -, -, -, hsome⟩ :=
    WriteFramesLessThan_some_true h
  obtain ⟨c1, hm1, htc, hb, -, -⟩ := hsome c hm
  refine ⟨flushLtSplit_append limit s.frames, hfr, ?_, ⟨c1, hm1, htc, hb⟩,
    fun hp => flushLtSplit_sorted_spec limit s.frames hp⟩
  rw [hfr]
  exact flushLtSplit_snd_ne_nil limit s.frames hne

/-- C5 counterexample: on the reachable unsorted hold queue
`[t=0, t=100, t=50]` (two audio tracks), flush-less-than(60) writes
nothing — the look-ahead stops at t=100 — although the claim's set
"frames whose immediate successor has timestamp ≤ 60" contains the t=100
frame. -/
theorem flush_less_than_cex :
    c5S.frames = [⟨1, 2, 0, false⟩, ⟨1, 2, 100, false⟩, ⟨1, 3, 50, false⟩] ∧
    specFlushLt 60 c5S.frames ≠ [] ∧
    (c5S.WriteFramesLessThan 60).map (fun r =>
      (r.1, r.2.frames.length,
        (r.2.clusters.getLast?).map (fun c => c.blocks.length))) =
      some (true, 3, some 1) ∧
    (c5S.clusters.getLast?).map (fun c => c.blocks.length) = some 1 :=
  ⟨by decide, by decide, by decide, by decide⟩

theorem flush_less_than_spec_witness :
    c5S.frames ≠ [] ∧
    (flushLtSplit 60 c5S.frames).1 ++ (flushLtSplit 60 c5S.frames).2 =
      c5S.frames ∧
    c5S2.frames = (flushLtSplit 60 c5S.frames).2 := by
  have h := flush_less_than_spec c5S 60 c5S2 c5C (by decide) (by decide)
    (by decide)
  exact ⟨by decide, h.1, h.2.1⟩

/-- C2 (amended): in file mode, once the last cluster is finalized (as
`Segment::Finalize` leaves it), every subsequent `Segment::AddFrame` that
reaches the write path fails and emits no bytes; the guarantee is not
segment-global — no finalized flag exists on `Segment` — and does not
hold in live mode, where finalize leaves no finalized cluster behind. -/
theorem finalize_terminal_file_spec :
    ∀ (s : Segment) (len tn ts : Nat) (k ivk : Bool) (c : Cluster),
      s.mode = Mode.kFile →
      s.headerWritten = true →
      s.clusters.getLast? = some c →
      c.finalized = true →
      (s.hasVideo = true → TrackIsAudio s.tracks tn = some false) →
      (if k then TrackIsVideo s.tracks tn else some false) = some ivk →
      (s.AddFrame len tn ts k).map (fun r => (r.1, r.2.writer.bytesWritten)) =
        some (false, s.writer.bytesWritten) := by
  intro s len tn ts k ivk c hmo hhw hm hcf hna hivk
  have hmain : (s.mainPath len tn ts k).map
      (fun r => (r.1, r.2.writer.bytesWritten)) =
      some (false, s.writer.bytesWritten) := by
    unfold Segment.mainPath
    rw [hivk]
    show (bchain
        (if s.clusterDecision ts ivk = true then
          ({ s with newCluster := s.clusterDecision ts ivk }).openCluster ts
         else some (true, { s with newCluster := s.clusterDecision ts ivk }))
        (fun sx => bchain sx.WriteFramesAll (fun sy =>
          sy.writeFrameToCluster len tn ts k))).map
        (fun r => (r.1, r.2.writer.bytesWritten)) =
      some (false, s.writer.bytesWritten)
    have hmR : ({ s with newCluster := s.clusterDecision ts ivk } :
        Segment).clusters.getLast? = some c := hm
    have hmoR : ({ s with newCluster := s.clusterDecision ts ivk } :
        Segment).mode = Mode.kFile := hmo
    by_cases hd : s.clusterDecision ts ivk = true
    · rw [if_pos hd]
      obtain ⟨s1, hoc, hwr⟩ := openCluster_finalized hmoR hmR hcf
      rw [hoc]
      simp only [bchain, Option.map_some']
      rw [hwr]
    · rw [if_neg hd, bchain_true_left]
      by_cases hf : ({ s with newCluster := s.clusterDecision ts ivk } :
          Segment).frames = []
      · have hwfa : ({ s with newCluster := s.clusterDecision ts ivk } :
            Segment).WriteFramesAll =
            some (true, { s with newCluster := s.clusterDecision ts ivk }) := by
          unfold Segment.WriteFramesAll
          rw [if_pos hf]
        rw [hwfa, bchain_true_left]
        obtain ⟨s1, hw, hwr, -, -, -⟩ :=
          @wftc_finalized _ len tn ts k _ hmR hcf
        rw [hw]
        simp only [Option.map_some']
        rw [hwr]
      · obtain ⟨s1, hwfa, hwr, -, -⟩ := WriteFramesAll_finalized hmR hcf hf
        rw [hwfa]
        simp only [bchain, Option.map_some']
        rw [hwr]
  unfold Segment.AddFrame
  rw [headerStep_of_written hhw, bchain_true_left]
  by_cases hv : s.hasVideo = true
  · rw [if_pos hv, hna hv]
    exact hmain
  · rw [if_neg hv]
    exact hmain

/-- C2 counterexample: in live mode finalize returns success (152 bytes
emitted) yet a later `AddFrame` of a video key-frame succeeds and emits
25 more bytes — finalize is not terminal. -/
theorem finalize_terminal_cex :
    (liveFinalized.map (fun s => s.writer.bytesWritten)) = some 152 ∧
    (liveFinalized.map (fun s => (s.AddFrame 1 1 50000000 true).map
      (fun r => (r.1, r.2.writer.bytesWritten)))) = some (some (true, 177)) :=
  ⟨by decide, by decide⟩

theorem finalize_terminal_file_spec_witness :
    c2S.mode = Mode.kFile ∧
    (c2S.AddFrame 1 1 50000000 false).map
      (fun r => (r.1, r.2.writer.bytesWritten)) =
      some (false, c2S.writer.bytesWritten) :=
  ⟨by decide,
   finalize_terminal_file_spec c2S 1 1 50000000 false false c2C (by decide)
     (by decide) (by decide) (by decide) (fun _ => by decide) (by decide)⟩

/-- C3 (amended): the cue point appended by `Segment::AddCuePoint` records
`cluster_pos = writer_position_at_cue_creation − payload_start`; the cue
is created by the *first* matching-track frame written into the cluster
after the flag was armed, and only when that write is also the first
block of the cluster (which then writes its header at the current
position) does `cluster_pos` equal the offset of the Cluster element
header. -/
theorem cue_cluster_pos_spec :
    ∀ (s : Segment) (len tn ts : Nat) (k : Bool) (s2 : Segment) (c : Cluster),
      s.clusters.getLast? = some c →
      s.newCuepoint = true → s.cuesTrack = tn →
      s.writeFrameToCluster len tn ts k = some (true, s2) →
      ∃ q, s2.cues = s.cues ++ [q] ∧
        q.clusterPos = s.writer.pos - s.payloadPos ∧
        q.createPos = s.writer.pos ∧
        q.time = ts / s.segmentInfo.timecodeScale ∧
        q.track = s.cuesTrack ∧
        q.blockNumber = c.blocksAdded + 1 ∧
        q.clusterIndex = s.clusters.length - 1 ∧
        (c.headerWritten = false → ∃ c1, s2.clusters.getLast? = some c1 ∧
          c1.headerPos = some s.writer.pos) := by
  intro s len tn ts k s2 c hm hnc hct h
  have hq : s.newCuepoint ∧ s.cuesTrack = tn := ⟨hnc, hct⟩
  simp only [Segment.writeFrameToCluster, hm, if_pos hq] at h
  split at h
  · exact absurd h (by simp)
  · next w c1 heq =>
    simp only [Option.some.injEq, Prod.mk.injEq, true_and] at h
    subst h
    refine ⟨_, rfl, rfl, rfl, rfl, rfl, rfl, rfl, ?_⟩
    intro hch
    obtain ⟨-, -, -, -, -, hhp⟩ := Cluster.AddFrame_eq_some heq
    exact ⟨c1, by simpa using setLast_getLast? s.clusters c1, hhp hch⟩

/-- C3 counterexample: in scenario 3 the second cue (time 33 ms) has
`cluster_pos = 387`, but its cluster's element header sits at byte 374
with payload start 12: the claimed offset would be 362. The cue was
created when the held audio frame at 20 ms (not the video key-frame) was
written into the fresh cluster, after the cluster header was already
emitted for that audio block at an earlier position than the cue's
creation position. -/
theorem cue_cluster_pos_cex :
    (scenario3.map (fun s => s.payloadPos)) = some 12 ∧
    (scenario3.map (fun s => (s.cues[1]?).map
      (fun q => (q.clusterPos, q.clusterIndex, q.blockNumber)))) =
      some (some (387, 1, 2)) ∧
    (scenario3.map (fun s => (s.clusters[1]?).map
      (fun c => (c.headerPos, c.blocks.map Block.sig)))) =
      some (some (some 374, [(2, 20000000, false), (1, 33000000, true)])) ∧
    (387 : Nat) ≠ 374 - 12 :=
  ⟨by decide, by decide, by decide, by decide⟩

theorem cue_cluster_pos_spec_witness :
    c3S.newCuepoint = true ∧
    ∃ q, c3S2.cues = c3S.cues ++ [q] ∧
      q.clusterPos = c3S.writer.pos - c3S.payloadPos ∧
      q.createPos = c3S.writer.pos ∧
      q.time = 7000000 / c3S.segmentInfo.timecodeScale ∧
      q.track = c3S.cuesTrack ∧
      q.blockNumber = (Cluster.new 5).blocksAdded + 1 ∧
      q.clusterIndex = c3S.clusters.length - 1 ∧
      ((Cluster.new 5).headerWritten = false → ∃ c1,
        c3S2.clusters.getLast? = some c1 ∧
        c1.headerPos = some c3S.writer.pos) :=
  ⟨by decide,
   cue_cluster_pos_spec c3S 1 1 7000000 true c3S2 (Cluster.new 5) (by decide)
     (by decide) (by decide) (by decide)⟩

/-- C1 (amended): when the boundary decision fires on a non-held frame,
the cluster that `Segment::AddFrame` leaves current holds, in order, the
held frames that survived flush-less-than(timestamp) followed by the new
frame itself — so the new cluster's first block is the new video
key-frame only when the hold queue was empty; held audio flushed by
`WriteFramesAll` precedes it otherwise. -/
theorem open_cluster_blocks_spec :
    ∀ (s : Segment) (len tn ts : Nat) (k ivk : Bool) (s2 : Segment),
      s.headerWritten = true →
      (s.hasVideo = true → TrackIsAudio s.tracks tn = some false) →
      (if k then TrackIsVideo s.tracks tn else some false) = some ivk →
      s.clusterDecision ts ivk = true →
      s.AddFrame len tn ts k = some (true, s2) →
      ∃ c, s2.clusters.getLast? = some c ∧
        c.blocks.map Block.sig =
          (flushLtSplit ts s.frames).2.map Frame.sig ++ [(tn, ts, k)] ∧
        (s.frames = [] → c.blocks.map Block.sig = [(tn, ts, k)]) := by
  intro s len tn ts k ivk s2 hhw hna hivk hd hadd
  unfold Segment.AddFrame at hadd
  rw [headerStep_of_written hhw, bchain_true_left] at hadd
  have hmain : s.mainPath len tn ts k = some (true, s2) := by
    by_cases hv : s.hasVideo = true
    · rw [if_pos hv, hna hv] at hadd
      exact hadd
    · rw [if_neg hv] at hadd
      exact hadd
  unfold Segment.mainPath at hmain
  rw [hivk] at hmain
  have hm3 : bchain
      (if s.clusterDecision ts ivk = true then
        ({ s with newCluster := s.clusterDecision ts ivk }).openCluster ts
       else some (true, { s with newCluster := s.clusterDecision ts ivk }))
      (fun sx => bchain sx.WriteFramesAll (fun sy =>
        sy.writeFrameToCluster len tn ts k)) = some (true, s2) := hmain
  rw [if_pos hd] at hm3
  obtain ⟨sA, hopen, h2⟩ := bchain_some_true hm3
  obtain ⟨sB, hwfa, h3⟩ := bchain_some_true h2
  obtain ⟨sW, hW, hlastA, hfrA, hsiA, -, -, -, -, -, -, -, -, -, -, -, -, -⟩ :=
    openCluster_some_true hopen
  have hfrW : sW.frames = (flushLtSplit ts s.frames).2 :=
    (WriteFramesLessThan_some_true hW).1
  obtain ⟨c1, hm1, htc1, -, hb1, -, -, -, -, -, -, -, -, -, -, -, -, -, -⟩ :=
    (WriteFramesAll_some_true hwfa).2.2 _ hlastA
  obtain ⟨cB, c2, hmB, -, -, -, hb2, hcl2, -⟩ := wftc_some_true h3
  rw [hm1] at hmB
  injection hmB with hcB
  subst hcB
  have hsig : c2.blocks.map Block.sig =
      sA.frames.map Frame.sig ++ [(tn, ts, k)] := by
    rw [hb2, hb1]
    simp [blockSig_map, mkBlock_sig, Cluster.new, Frame.sig]
  refine ⟨c2, ?_, ?_, ?_⟩
  · rw [hcl2]
    exact setLast_getLast? _ _
  · rw [hsig, hfrA, hfrW]
  · intro hfe
    rw [hsig, hfrA, hfrW, hfe]
    simp [flushLtSplit]

/-- C1 counterexample: scenario 3 has a video track, yet the second
cluster's first block is the held audio frame at 20 ms (track 2,
non-key): the held audio is flushed into the *new* cluster ahead of the
triggering video key-frame. -/
theorem open_cluster_blocks_cex :
    segAV.hasVideo = true ∧
    (scenario3.map (fun s => s.tracks.map (fun t => (t.number, t.ttype)))) =
      some [(1, kVideo), (2, kAudio)] ∧
    (scenario3.map (fun s => (s.clusters[1]?).map
      (fun c => c.blocks.head?.map Block.sig))) =
      some (some (some (2, 20000000, false))) :=
  ⟨by decide, by decide, by decide⟩

theorem open_cluster_blocks_spec_witness :
    c1S.headerWritten = true ∧
    ∃ c, c1S2.clusters.getLast? = some c ∧
      c.blocks.map Block.sig =
        (flushLtSplit 33000000 c1S.frames).2.map Frame.sig ++
          [(1, 33000000, true)] ∧
      (c1S.frames = [] → c.blocks.map Block.sig = [(1, 33000000, true)]) :=
  ⟨by decide,
   open_cluster_blocks_spec c1S 1 1 33000000 true true c1S2 (by decide)
     (fun _ => by decide) (by decide) (by decide) (by decide)⟩

/-- C6: with frames presented in non-decreasing timestamp order, every
cluster's base timecode is at most the scaled timestamp of every block in
it (also after finalize), and a cluster is opened at base
`min(new_frame_scaled, oldest_surviving_held_scaled)` — the new frame's
scaled timestamp, lowered to the oldest queued frame's when smaller. -/
theorem cluster_timecode_le_blocks :
    (∀ (s0 : Segment) (fs : List Frame) (s : Segment),
      s0.clusters = [] → s0.frames = [] →
      fs.Pairwise (fun a b => a.timestamp ≤ b.timestamp) →
      runFrames s0 fs = some s →
      (∀ c ∈ s.clusters, clusterOk s.segmentInfo.timecodeScale c) ∧
      (∀ s2, s.Finalize = some (true, s2) →
        ∀ c ∈ s2.clusters, clusterOk s2.segmentInfo.timecodeScale c)) ∧
    (∀ (sx : Segment) (ts : Nat) (sy : Segment),
      sx.openCluster ts = some (true, sy) →
      ∃ s1, sx.WriteFramesLessThan ts = some (true, s1) ∧
        (sy.clusters.getLast?).map Cluster.timecode =
          some (match s1.frames.head? with
            | some q => min (ts / s1.segmentInfo.timecodeScale)
                (q.timestamp / s1.segmentInfo.timecodeScale)
            | none => ts / s1.segmentInfo.timecodeScale)) := by
  constructor
  · intro s0 fs s hc0 hf0 hp hrun
    have hinv0 : SegInv s0 0 := by
      refine ⟨?_, ?_, ?_, ?_⟩
      · intro c hc
        rw [hc0] at hc
        cases hc
      · rw [hf0]
        exact List.Pairwise.nil
      · intro f hf
        rw [hf0] at hf
        cases hf
      · intro c hcm
        rw [hc0] at hcm
        cases hcm
    obtain ⟨t2, hinv⟩ :=
      Inv_runFrames fs s0 0 s hinv0 (fun f _ => Nat.zero_le _) hp hrun
    exact ⟨hinv.1, fun s2 hfin => Inv_SegFinalize hinv hfin⟩
  · intro sx ts sy h
    obtain ⟨s1, hW, hlast, -, -, -, -, -, -, -, -, -, -, -, -, -, -, -⟩ :=
      openCluster_some_true h
    refine ⟨s1, hW, ?_⟩
    rw [hlast]
    simp only [Option.map_some']
    exact congrArg some (newClusterTimecode_eq s1 ts)

theorem cluster_timecode_le_blocks_witness :
    segAV.clusters = [] ∧
    ∀ c ∈ (getSeg scenario3).clusters,
      clusterOk (getSeg scenario3).segmentInfo.timecodeScale c := by
  have hrun : runFrames segAV scenario3Frames = some (getSeg scenario3) := by
    decide
  have h := (cluster_timecode_le_blocks.1 segAV scenario3Frames
    (getSeg scenario3) (by decide) (by decide) (by decide) hrun).1
  exact ⟨by decide, h⟩

end mkvmuxer
